import Mathlib

/-!
Verification of the BaseX client protocol engine: a shallow embedding of the
escaping codec, the streaming response decoders (query shape and plain-command
shape), authentication, query-error parsing and query-session framing,
together with theorems checking the specified properties against it.

Bytes are modelled as `Nat` (values < 256 in practice), byte buffers as
`List Nat`, and the underlying stream as the list of byte chunks that
successive calls of the raw read primitive deliver.  A Rust `panic!`
(including an out-of-bounds index or an integer underflow) is modelled as
`Option.none`; typed errors of the `ClientError` taxonomy are values of
`CErr` inside `Except`.
-/

deriving instance DecidableEq for Except

set_option maxRecDepth 100000

/-- Option-valued list indexing, modelling a checked `buf[i]` read. -/
def getO (l : List Nat) (i : Nat) : Option Nat := l.get? i

/-- Option-valued list update, modelling a checked `buf[i] = v` write. -/
def setO (l : List Nat) (i : Nat) (v : Nat) : Option (List Nat) :=
  if i < l.length then some (l.set i v) else none

/-- First index satisfying a predicate (Rust `str::find` / `Iterator::position`). -/
def findIdxO (p : Char → Bool) : List Char → Option Nat
  | [] => none
  | c :: rest => if p c then some 0 else (findIdxO p rest).map (· + 1)

/-- First index of a byte satisfying a predicate. -/
def findByteIdx (p : Nat → Bool) : List Nat → Option Nat
  | [] => none
  | b :: rest => if p b then some 0 else (findByteIdx p rest).map (· + 1)

/-- Last index satisfying a predicate (Rust `str::rfind`). -/
def rfindIdxO (p : Char → Bool) (l : List Char) : Option Nat :=
  (findIdxO p l.reverse).map (fun i => l.length - 1 - i)

/-- The byte-stuffing escape codec on a whole byte sequence: every literal
`0x00` or `0xFF` is preceded by one extra `0xFF`; other bytes pass through. -/
def escapeBytes : List Nat → List Nat
  | [] => []
  | b :: rest => (if b = 0 ∨ b = 255 then [255, b] else [b]) ++ escapeBytes rest

/-- Bytes written by `Connection::send_arg`: the escaped argument followed by
one unescaped `0x00` terminator. -/
def sendArgBytes (b : List Nat) : List Nat := escapeBytes b ++ [0]

/-- The per-call payload scan shared by both response decoder shapes
(`Response::read` in `query/response.rs` and `client/response.rs`): an
unescaped `0xFF` marks the next byte literal and is consumed silently, an
unescaped `0x00` stops the scan.  Returns the emitted (unescaped) bytes —
the compressed `buf[..count]` the caller sees — and, when the delimiter was
found, the raw bytes of this chunk that follow it. -/
def scanPayload : List Nat → Bool → List Nat × Option (List Nat)
  | [], _ => ([], none)
  | b :: rest, esc =>
    if b = 255 ∧ esc = false then scanPayload rest true
    else if b = 0 ∧ esc = false then ([], some rest)
    else
      let r := scanPayload rest false
      (b :: r.1, r.2)

/-- Decoder state of the query-execute response shape (`query/response.rs`). -/
structure QState where
  resultComplete : Bool
  isOk : Bool
  infoComplete : Bool
  infoAcc : Option (List Nat)

deriving DecidableEq

/-- Fresh state built by `Response::new` (query shape). -/
def qreadInit : QState := ⟨false, false, false, none⟩

/-- One call of `Response::read` (query shape) on the byte slice `data`
delivered by the underlying read primitive.  Returns `none` on the
invalid-status-byte `panic!`, otherwise the new state and the emitted
payload bytes.  The `escape`/`shift`/delimiter scan state is local to the
call, exactly as in the source. -/
def qreadStep (st : QState) (data : List Nat) : Option (QState × List Nat) :=
  if st.resultComplete then some (st, [])
  else
    match scanPayload data false with
    | (out, none) => some (st, out)
    | (out, some rest) =>
      match rest with
      | [] => some (st, out)
      | status :: tail =>
        if status = 0 then
          some ({ resultComplete := true, isOk := true, infoComplete := true,
                  infoAcc := st.infoAcc }, out)
        else if status = 1 then
          match findByteIdx (· == 0) tail with
          | some len =>
            some ({ resultComplete := true, isOk := false, infoComplete := true,
                    infoAcc := some (tail.take len) }, out)
          | none =>
            some ({ resultComplete := true, isOk := false,
                    infoComplete := st.infoComplete, infoAcc := some tail }, out)
        else none

/-- Repeated `Response::read` calls (query shape) over a schedule of chunks,
collecting all emitted payload bytes; models reading the response result to
its end under a given chunking of the wire bytes. -/
def qdecode : QState → List (List Nat) → Option (QState × List Nat)
  | st, [] => some (st, [])
  | st, c :: cs => do
    let r ← qreadStep st c
    let r2 ← qdecode r.1 cs
    some (r2.1, r.2 ++ r2.2)

/-- Decoder state of the plain-command response shape (`client/response.rs`). -/
structure CState where
  infoAcc : Option (List Nat)
  infoComplete : Bool
  isOk : Bool

deriving DecidableEq

/-- Fresh state built by `Response::new` (plain-command shape). -/
def creadInit : CState := ⟨none, false, false⟩

/-- One call of `Response::read` (plain-command shape) on the byte slice
`data`.  After the payload delimiter it looks for the info string's `0x00`
terminator and reads the status byte right after it; an out-of-range status
index or a status byte other than 0/1 is a `panic!` (`none`). -/
def creadStep (st : CState) (data : List Nat) : Option (CState × List Nat) :=
  if st.infoAcc.isSome then some (st, [])
  else
    match scanPayload data false with
    | (out, none) => some (st, out)
    | (out, some rest) =>
      match rest with
      | [] => some (st, out)
      | _ :: _ =>
        match findByteIdx (· == 0) rest with
        | some len =>
          match rest.get? (len + 1) with
          | none => none
          | some sb =>
            if sb = 0 then
              some ({ infoAcc := some (rest.take len), infoComplete := true,
                      isOk := true }, out)
            else if sb = 1 then
              some ({ infoAcc := some (rest.take len), infoComplete := true,
                      isOk := false }, out)
            else none
        | none =>
          some ({ infoAcc := some rest, infoComplete := st.infoComplete,
                  isOk := st.isOk }, out)

/-- Slice `l[a..b]` of Rust; `none` models the slice-bounds `panic!`. -/
def sliceO (l : List Char) (a b : Nat) : Option (List Char) :=
  if a ≤ b ∧ b ≤ l.length then some ((l.take b).drop a) else none

/-- Suffix `l[a..]` of Rust; `none` models the out-of-range `panic!`. -/
def dropO (l : List Char) (a : Nat) : Option (List Char) :=
  if a ≤ l.length then some (l.drop a) else none

/-- ASCII decimal digit test. -/
def isDigitB (c : Char) : Bool := 48 ≤ c.toNat ∧ c.toNat ≤ 57

/-- Numeric value of a decimal digit string. -/
def natOfDigits (l : List Char) : Nat :=
  l.foldl (fun acc c => 10 * acc + (c.toNat - 48)) 0

/-- The largest `usize` value on the 64-bit targets the client is built for,
`2^64 - 1`. -/
def usizeMax : Nat := 18446744073709551615

/-- `usize::from_str`: an optional `+` sign followed by at least one decimal
digit, whose value must fit a `usize` — a digit string above `usize::MAX` is
the `PosOverflow` error; any error makes the caller's `unwrap` a `panic!`. -/
def parseNat (l : List Char) : Option Nat :=
  match l with
  | [] => none
  | c :: rest =>
    if c = '+' then
      if rest ≠ [] ∧ rest.all isDigitB ∧ natOfDigits rest ≤ usizeMax then
        some (natOfDigits rest)
      else none
    else if (c :: rest).all isDigitB ∧ natOfDigits (c :: rest) ≤ usizeMax then
      some (natOfDigits (c :: rest))
    else none

/-- The components `QueryFailed` parses from a failed query's error text. -/
structure QueryFailedS where
  raw : List Char
  code : List Char
  line : Nat
  position : Nat
  message : List Char
  file : List Char

deriving DecidableEq

/-- `QueryFailed::new`: extracts code, line, column, message and file from the
`Stopped at <file>, <line>/<column>: [<code>] <message>` grammar by the exact
find/rfind index arithmetic of the source; any failing `find`, slice bound or
`from_str` is an unwrap `panic!` (`none`). -/
def queryFailedNew (raw : List Char) : Option QueryFailedS := do
  let ci ← findIdxO (· = '[') raw
  let cj ← findIdxO (· = ']') (raw.drop ci)
  let codeStop := ci + cj
  let code ← sliceO raw (ci + 1) codeStop
  let ls ← rfindIdxO (· = '/') (raw.take ci)
  let lstart ← rfindIdxO (· = ',') (raw.take ls)
  let lcolon ← findIdxO (· = ':') (raw.drop ls)
  let lineStop := ls + lcolon
  let lineStr ← sliceO raw (lstart + 2) ls
  let line ← parseNat lineStr
  let colStr ← sliceO raw (ls + 1) lineStop
  let col ← parseNat colStr
  let message ← dropO raw (codeStop + 2)
  let file ← sliceO raw 11 lstart
  some ⟨raw, code, line, col, message, file⟩

/-- The typed error taxonomy (`ClientError`), restricted to the payloads the
theorems need. -/
inductive CErr where
  | ioErr : CErr
  | utf8Err : CErr
  | auth : CErr
  | commandFailed : List Char → CErr
  | queryFailedE : QueryFailedS → CErr

deriving DecidableEq

/-- Decodes one UTF-8 scalar from a leading byte and the following bytes,
with full validation (continuations, overlong forms, surrogates, range):
the code point and the remaining bytes, or `none` on malformed input. -/
def utf8Head (b : Nat) (rest : List Nat) : Option (Nat × List Nat) :=
  if b < 128 then some (b, rest)
  else if b < 194 then none
  else if b ≤ 223 then
    match rest with
    | [] => none
    | c1 :: rest2 =>
      if 128 ≤ c1 ∧ c1 ≤ 191 then some ((b - 192) * 64 + (c1 - 128), rest2)
      else none
  else if b ≤ 239 then
    match rest with
    | [] => none
    | [_] => none
    | c1 :: c2 :: rest2 =>
      let cp := (b - 224) * 4096 + (c1 - 128) * 64 + (c2 - 128)
      if 128 ≤ c1 ∧ c1 ≤ 191 ∧ 128 ≤ c2 ∧ c2 ≤ 191 ∧ 2048 ≤ cp ∧
          ¬(55296 ≤ cp ∧ cp ≤ 57343) then some (cp, rest2)
      else none
  else if b ≤ 244 then
    match rest with
    | [] => none
    | [_] => none
    | [_, _] => none
    | c1 :: c2 :: c3 :: rest2 =>
      let cp := (b - 240) * 262144 + (c1 - 128) * 4096 + (c2 - 128) * 64 + (c3 - 128)
      if 128 ≤ c1 ∧ c1 ≤ 191 ∧ 128 ≤ c2 ∧ c2 ≤ 191 ∧ 128 ≤ c3 ∧ c3 ≤ 191 ∧
          65536 ≤ cp ∧ cp ≤ 1114111 then some (cp, rest2)
      else none
  else none

/-- Fuel-driven UTF-8 decode loop; the fuel only bounds the recursion and is
always sufficient when set to the byte count. -/
def decodeUtf8F : Nat → List Nat → Option (List Char)
  | _, [] => some []
  | 0, _ :: _ => none
  | fuel + 1, b :: rest =>
    match utf8Head b rest with
    | none => none
    | some p => (decodeUtf8F fuel p.2).map (fun cs => Char.ofNat p.1 :: cs)

/-- UTF-8 decoding of a byte sequence, modelling `String::from_utf8`; `none`
is the `FromUtf8Error` case. -/
def decodeUtf8 (l : List Nat) : Option (List Char) := decodeUtf8F l.length l

/-- UTF-8 encoding of one character (`str::as_bytes` on its 1..4 byte form). -/
def charUtf8 (c : Char) : List Nat :=
  let n := c.toNat
  if n < 128 then [n]
  else if n < 2048 then [192 + n / 64, 128 + n % 64]
  else if n < 65536 then [224 + n / 4096, 128 + n / 64 % 64, 128 + n % 64]
  else [240 + n / 262144, 128 + n / 4096 % 64, 128 + n / 64 % 64, 128 + n % 64]

/-- UTF-8 encoding of a character sequence. -/
def encodeUtf8 (s : List Char) : List Nat := s.flatMap charUtf8

/-- Byte form of an ASCII string literal. -/
def strBytes (s : String) : List Nat := encodeUtf8 s.toList

/-- Splits the stream at the first `0x00`, consuming it: the byte-at-a-time
loop of `Connection::read_string`.  `none` models `read_exact` hitting the
end of the stream before any `0x00` (an `Io` error after consuming all bytes). -/
def splitAtZero : List Nat → Option (List Nat × List Nat)
  | [] => none
  | b :: rest =>
    if b = 0 then some ([], rest)
    else (splitAtZero rest).map (fun p => (b :: p.1, p.2))

/-- `Connection::read_string`: bytes up to an unread `0x00`, decoded as UTF-8.
Returns the typed result together with the remaining stream. -/
def readStringE (input : List Nat) : Except CErr (List Char) × List Nat :=
  match splitAtZero input with
  | none => (Except.error CErr.ioErr, [])
  | some (s, rest) =>
    match decodeUtf8 s with
    | some cs => (Except.ok cs, rest)
    | none => (Except.error CErr.utf8Err, rest)

/-- `Connection::get_response`: a NUL-terminated info string followed by one
status byte; status 0 succeeds, anything else is `CommandFailed(info)`. -/
def getResponse (input : List Nat) : Except CErr (List Char) × List Nat :=
  match readStringE input with
  | (Except.error e, rest) => (Except.error e, rest)
  | (Except.ok info, rest) =>
    match rest with
    | [] => (Except.error CErr.ioErr, [])
    | b :: rest2 =>
      if b = 0 then (Except.ok info, rest2)
      else (Except.error (CErr.commandFailed info), rest2)

/-- The `while !self.result_complete && self.read(&mut buf)? > 0` drain loop
of the query-shape `Response::close`.  Each iteration consumes one chunk of
the schedule; an empty schedule means the raw read returns 0 (end of stream),
and a read call returning 0 emitted bytes ends the loop. -/
def closeQLoop : QState → List (List Nat) → Option (QState × List (List Nat))
  | st, [] => some (st, [])
  | st, c :: cs =>
    if st.resultComplete then some (st, c :: cs)
    else
      match qreadStep st c with
      | none => none
      | some (st2, out) => if out.length = 0 then some (st2, cs) else closeQLoop st2 cs

/-- The failure-path suffix read of the query-shape `close`: when the failure
info was not fully observed during `read` calls, the rest is drained with
`read_string`. -/
def closeQSuffix (st : QState) (flat : List Nat) :
    Except CErr (Option (List Char)) × List Nat :=
  if st.infoComplete then (Except.ok none, flat)
  else
    match readStringE flat with
    | (Except.error e, r) => (Except.error e, r)
    | (Except.ok s, r) => (Except.ok (some s), r)

/-- Query-shape `Response::close`: drains until the payload boundary and
status are observed (`panic!` if the stream ends first), then returns the
query on success or `QueryFailed` built from the failure info.  The second
component is the remaining stream, flattened. -/
def closeQ (st : QState) (chunks : List (List Nat)) :
    Option (Except CErr Unit × List Nat) :=
  match closeQLoop st chunks with
  | none => none
  | some (st2, rest) =>
    if st2.resultComplete = false then none
    else if st2.isOk then some (Except.ok (), rest.flatten)
    else
      match closeQSuffix st2 rest.flatten with
      | (Except.error e, r) => some (Except.error e, r)
      | (Except.ok sfx, r) =>
        match decodeUtf8 (st2.infoAcc.getD []) with
        | none => some (Except.error CErr.utf8Err, r)
        | some infoChars =>
          match queryFailedNew (infoChars ++ sfx.getD []) with
          | none => none
          | some qf => some (Except.error (CErr.queryFailedE qf), r)

/-- The `while self.info_prefix.is_none() && self.read(&mut buf)? > 0` drain
loop of the plain-command `Response::close`. -/
def closeCLoop : CState → List (List Nat) → Option (CState × List (List Nat))
  | st, [] => some (st, [])
  | st, c :: cs =>
    if st.infoAcc.isSome then some (st, c :: cs)
    else
      match creadStep st c with
      | none => none
      | some (st2, out) => if out.length = 0 then some (st2, cs) else closeCLoop st2 cs

/-- The suffix read of the plain-command `close`: when the info string was not
fully observed during `read` calls, its rest is drained with `read_string`
and the status byte is then read with `is_ok`. -/
def closeCDrain (st : CState) (flat : List Nat) :
    Except CErr (Option (List Char) × Bool) × List Nat :=
  if st.infoComplete then (Except.ok (none, st.isOk), flat)
  else
    match readStringE flat with
    | (Except.error e, r) => (Except.error e, r)
    | (Except.ok s, r) =>
      match r with
      | [] => (Except.error CErr.ioErr, [])
      | b :: r2 => (Except.ok (some s, b == 0), r2)

/-- Plain-command `Response::close`: drains until the info string is observed
(`panic!` if the stream ends first), completes info and status if needed, and
returns the info on success or `CommandFailed(info)` on failure.  The second
component is the remaining stream, flattened. -/
def closeC (st : CState) (chunks : List (List Nat)) :
    Option (Except CErr (List Char) × List Nat) :=
  match closeCLoop st chunks with
  | none => none
  | some (st2, rest) =>
    match st2.infoAcc with
    | none => none
    | some accBytes =>
      match closeCDrain st2 rest.flatten with
      | (Except.error e, r) => some (Except.error e, r)
      | (Except.ok (sfx, ok2), r) =>
        match decodeUtf8 accBytes with
        | none => some (Except.error CErr.utf8Err, r)
        | some infoChars =>
          let info := infoChars ++ sfx.getD []
          if ok2 then some (Except.ok info, r)
          else some (Except.error (CErr.commandFailed info), r)

/-- The 64 MD5 sine-derived round constants. -/
def md5K : List Nat :=
  [0xd76aa478, 0xe8c7b756, 0x242070db, 0xc1bdceee,
   0xf57c0faf, 0x4787c62a, 0xa8304613, 0xfd469501,
   0x698098d8, 0x8b44f7af, 0xffff5bb1, 0x895cd7be,
   0x6b901122, 0xfd987193, 0xa679438e, 0x49b40821,
   0xf61e2562, 0xc040b340, 0x265e5a51, 0xe9b6c7aa,
   0xd62f105d, 0x02441453, 0xd8a1e681, 0xe7d3fbc8,
   0x21e1cde6, 0xc33707d6, 0xf4d50d87, 0x455a14ed,
   0xa9e3e905, 0xfcefa3f8, 0x676f02d9, 0x8d2a4c8a,
   0xfffa3942, 0x8771f681, 0x6d9d6122, 0xfde5380c,
   0xa4beea44, 0x4bdecfa9, 0xf6bb4b60, 0xbebfbc70,
   0x289b7ec6, 0xeaa127fa, 0xd4ef3085, 0x04881d05,
   0xd9d4d039, 0xe6db99e5, 0x1fa27cf8, 0xc4ac5665,
   0xf4292244, 0x432aff97, 0xab9423a7, 0xfc93a039,
   0x655b59c3, 0x8f0ccc92, 0xffeff47d, 0x85845dd1,
   0x6fa87e4f, 0xfe2ce6e0, 0xa3014314, 0x4e0811a1,
   0xf7537e82, 0xbd3af235, 0x2ad7d2bb, 0xeb86d391]

/-- The 64 MD5 per-round left-rotation amounts. -/
def md5S : List Nat :=
  [7, 12, 17, 22, 7, 12, 17, 22, 7, 12, 17, 22, 7, 12, 17, 22,
   5, 9, 14, 20, 5, 9, 14, 20, 5, 9, 14, 20, 5, 9, 14, 20,
   4, 11, 16, 23, 4, 11, 16, 23, 4, 11, 16, 23, 4, 11, 16, 23,
   6, 10, 15, 21, 6, 10, 15, 21, 6, 10, 15, 21, 6, 10, 15, 21]

/-- Bitwise complement on 32-bit words (inputs below `2^32`). -/
def not32 (x : Nat) : Nat := 4294967295 - x

/-- 32-bit left rotation (input below `2^32`). -/
def rotl32 (x s : Nat) : Nat := (x * 2 ^ s + x / 2 ^ (32 - s)) % 4294967296

/-- `n` little-endian bytes of `x`. -/
def leBytes : Nat → Nat → List Nat
  | 0, _ => []
  | n + 1, x => x % 256 :: leBytes n (x / 256)

/-- Little-endian 32-bit word from (up to) four bytes. -/
def leWord (l : List Nat) : Nat :=
  l.getD 0 0 + 256 * l.getD 1 0 + 65536 * l.getD 2 0 + 16777216 * l.getD 3 0

/-- MD5 padding: `0x80`, zeros to 56 mod 64, then the bit length as eight
little-endian bytes. -/
def md5Pad (msg : List Nat) : List Nat :=
  msg ++ [128] ++ List.replicate ((119 - msg.length % 64) % 64) 0
      ++ leBytes 8 (msg.length * 8)

/-- Splits a padded message into 64-byte blocks (fuel-driven for structural
recursion; call with the list length as fuel). -/
def chunksOf64 : Nat → List Nat → List (List Nat)
  | 0, _ => []
  | _ + 1, [] => []
  | fuel + 1, b :: rest => ((b :: rest).take 64) :: chunksOf64 fuel ((b :: rest).drop 64)

/-- The sixteen message words of one 64-byte block. -/
def md5Words (block : List Nat) : List Nat :=
  (List.range 16).map (fun j => leWord (block.drop (4 * j)))

/-- One of the 64 MD5 rounds on state `(a, b, c, d)`. -/
def md5Step (m : List Nat) (st : Nat × Nat × Nat × Nat) (i : Nat) : Nat × Nat × Nat × Nat :=
  let a := st.1
  let b := st.2.1
  let c := st.2.2.1
  let d := st.2.2.2
  let fg : Nat × Nat :=
    if i < 16 then (Nat.lor (Nat.land b c) (Nat.land (not32 b) d), i)
    else if i < 32 then (Nat.lor (Nat.land d b) (Nat.land (not32 d) c), (5 * i + 1) % 16)
    else if i < 48 then (Nat.xor (Nat.xor b c) d, (3 * i + 5) % 16)
    else (Nat.xor c (Nat.lor b (not32 d)), (7 * i) % 16)
  let temp := (a + fg.1 + md5K.getD i 0 + m.getD fg.2 0) % 4294967296
  (d, (b + rotl32 temp (md5S.getD i 0)) % 4294967296, b, c)

/-- MD5 compression of one block into the running state. -/
def md5Block (st : Nat × Nat × Nat × Nat) (block : List Nat) : Nat × Nat × Nat × Nat :=
  let m := md5Words block
  let r := (List.range 64).foldl (md5Step m) st
  ((st.1 + r.1) % 4294967296, (st.2.1 + r.2.1) % 4294967296,
   (st.2.2.1 + r.2.2.1) % 4294967296, (st.2.2.2 + r.2.2.2) % 4294967296)

/-- The 16-byte MD5 digest of a byte sequence (`md5::compute`). -/
def md5Bytes (msg : List Nat) : List Nat :=
  let padded := md5Pad msg
  let st := (chunksOf64 padded.length padded).foldl md5Block
    (1732584193, 4023233417, 2562383102, 271733878)
  leBytes 4 st.1 ++ leBytes 4 st.2.1 ++ leBytes 4 st.2.2.1 ++ leBytes 4 st.2.2.2

/-- Lowercase hexadecimal digit. -/
def hexDigit (n : Nat) : Char := Char.ofNat (if n < 10 then 48 + n else 87 + n)

/-- Lowercase hexadecimal rendering of a byte sequence (`format!` with `:x`
on an `md5::Digest`). -/
def hexOfBytes (l : List Nat) : List Char :=
  l.flatMap (fun b => [hexDigit (b / 16), hexDigit (b % 16)])

/-- Lowercase hex MD5 of a byte sequence. -/
def md5Hex (msg : List Nat) : List Char := hexOfBytes (md5Bytes msg)

/-- Rust `str::split` on a single separator character. -/
def splitOnChar (sep : Char) : List Char → List (List Char)
  | [] => [[]]
  | c :: rest =>
    let r := splitOnChar sep rest
    if c = sep then [] :: r
    else
      match r with
      | [] => [[c]]
      | h :: t => (c :: h) :: t

/-- The authentication reply `format!` builds in `Connection::authenticate`:
`user`, NUL, lowercase hex of `MD5(hex(MD5("user:name:password")) + timestamp)`,
NUL. -/
def authReply (user password name timestamp : List Char) : List Char :=
  let d1 := md5Hex (encodeUtf8 (user ++ ':' :: name ++ ':' :: password))
  let d2 := md5Hex (encodeUtf8 d1 ++ encodeUtf8 timestamp)
  user ++ Char.ofNat 0 :: (d2 ++ [Char.ofNat 0])

/-- `Connection::authenticate`: reads the NUL-terminated challenge, splits it
at `:` (a missing second part is an index `panic!`), writes the reply and
reads one control byte; a nonzero byte is the `Auth` error.  Returns the
result, the bytes written and the remaining input. -/
def authenticate (user password : List Char) (input : List Nat) :
    Option (Except CErr Unit × List Nat × List Nat) :=
  match readStringE input with
  | (Except.error e, rest) => some (Except.error e, [], rest)
  | (Except.ok resp, rest) =>
    let parts := splitOnChar ':' resp
    match parts.get? 0, parts.get? 1 with
    | some name, some ts =>
      let written := encodeUtf8 (authReply user password name ts)
      match rest with
      | [] => some (Except.error CErr.ioErr, written, [])
      | c :: rest2 =>
        if c ≠ 0 then some (Except.error CErr.auth, written, rest2)
        else some (Except.ok (), written, rest2)
    | _, _ => none

/-- Bytes `Query::bind` writes before the value continuation: the `Bind`
command code 3, then the query id and the variable name as arguments. -/
def bindCmdBytes (id name : List Nat) : List Nat :=
  3 :: (sendArgBytes id ++ sendArgBytes name)

/-- Bytes written by `ArgumentWithOptionalValue::with_value`: the value's
textual serialization and its XQuery type token, each as one argument. -/
def withValueBytes (value ty : List Nat) : List Nat :=
  sendArgBytes value ++ sendArgBytes ty

/-- Bytes written by `ArgumentWithOptionalValue::without_value`: two
`skip_arg` calls, i.e. two bare `0x00` bytes. -/
def withoutValueBytes : List Nat := [0, 0]

/-- Value serialization of the `i32` `ToQueryArgument` instance:
`self.to_string()` as bytes. -/
def intValueBytes (n : Int) : List Nat := strBytes (toString n)

/-- XQuery type token of the `&str`/`String` instances. -/
def strXqueryType : String := "xs:string"

/-- XQuery type token of the `i32` instance. -/
def intXqueryType : String := "xs:int"

/-- Bytes `Query::updating` writes: the `Updating` command code 30 followed
by the query id argument. -/
def updatingWritten (id : List Nat) : List Nat := 30 :: sendArgBytes id

/-- `Query::updating`: sends `Updating` + id and matches the response text;
exactly `true`/`false` produce a boolean, any other text is a `panic!`
(`none`); `get_response` errors pass through typed. -/
def updatingRun (id input : List Nat) : Option (Except CErr Bool × List Nat × List Nat) :=
  let written := updatingWritten id
  match getResponse input with
  | (Except.ok s, rest) =>
    if s = "true".toList then some (Except.ok true, written, rest)
    else if s = "false".toList then some (Except.ok false, written, rest)
    else none
  | (Except.error e, rest) => some (Except.error e, written, rest)

/-- Value serialization of the synchronous `ToQueryArgument for Option<D>`
(`src/query/argument.rs`): `self.as_ref().unwrap().write_xquery(..)` — a
`panic!` (`none`) when the value is absent. -/
def syncOptionValue (w : α → List Nat) : Option α → Option (List Nat)
  | some v => some (w v)
  | none => none

/-- Value serialization of the asynchronous `ToQueryArgument for Option<D>`
(`src/asynchronous/query/argument.rs`): the element's bytes when present,
the empty string when absent. -/
def asyncOptionValue (w : α → List Nat) : Option α → List Nat
  | some v => w v
  | none => strBytes ""

/-- `Option<D>::xquery_type()` — both revisions return `D::xquery_type()`. -/
def optionXqueryType (t : String) : String := t

/-- Count of bytes needing an escape marker (`0x00`/`0xFF`), as computed by
`EscapeReader::read` over the freshly read slice. -/
def countEsc (l : List Nat) : Nat := l.countP (fun b => b == 0 || b == 255)

/-- The accumulator-draining loop at the top of `EscapeReader::read`: `k`
pops off the end of the pending vector, written at `buf[j..]`. -/
def popInto : List Nat → List Nat → Nat → Nat → Option (List Nat × List Nat)
  | buf, acc, _, 0 => some (buf, acc)
  | buf, acc, j, k + 1 => do
    let v ← acc.getLast?
    let b ← setO buf j v
    popInto b acc.dropLast (j + 1) k

/-- The inner `read` into `buf[j..j+k]`, modelling a slice-backed reader that
delivers `k` bytes from the front of `src`. -/
def copyInto : List Nat → List Nat → Nat → Nat → Option (List Nat)
  | buf, _, _, 0 => some buf
  | buf, src, j, k + 1 =>
    match src with
    | [] => none
    | v :: rest => do
      let b ← setO buf j v
      copyInto b rest (j + 1) k

/-- The reverse shifting loop of `EscapeReader::read`, iterating
`i = lo + steps - 1` down to `lo`: each source byte `buf[i - shift]` is moved
to expanded position `i` (or pushed to the accumulator when past the buffer)
and escape-worthy bytes get a `0xFF` marker at `i - 1`; every index, the
`i - shift` subtraction and the `shift -= 1` decrement are checked, `none`
modelling the corresponding `panic!`. -/
def escLoop (lo : Nat) : Nat → List Nat → List Nat → Nat → Bool → Option (List Nat × List Nat × Nat)
  | 0, buf, acc, shift, _ => some (buf, acc, shift)
  | steps + 1, buf, acc, shift, nextSkip =>
    let i := lo + steps
    if nextSkip then escLoop lo steps buf acc shift false
    else do
      let src ← if shift ≤ i then getO buf (i - shift) else none
      let p ← if buf.length ≤ i then some (buf, acc ++ [src])
        else do
          let b ← setO buf i src
          some (b, acc)
      let v ← if shift ≤ i then getO p.1 (i - shift) else none
      if v = 255 ∨ v = 0 then do
        let q ← if i ≤ p.1.length then
            if 1 ≤ i then do
              let b ← setO p.1 (i - 1) 255
              some (b, p.2)
            else none
          else some (p.1, p.2 ++ [255])
        let shift2 ← if 1 ≤ shift then some (shift - 1) else none
        escLoop lo steps q.1 q.2 shift2 true
      else escLoop lo steps p.1 p.2 shift false

/-- `EscapeReader::read`: pops pending bytes into the buffer, reads fresh
bytes from `input`, escapes them in place by the reverse shifting loop, and
returns the new buffer, the reported count, the new pending accumulator and
the remaining input; `none` is any index/underflow `panic!`. -/
def escapeRead (acc input buf : List Nat) : Option (List Nat × Nat × List Nat × List Nat) := do
  let accLen := min buf.length acc.length
  let p ← popInto buf acc 0 accLen
  let n := min (buf.length - accLen) input.length
  let buf2 ← copyInto p.1 input accLen n
  let e := countEsc ((buf2.drop accLen).take n)
  let r ← escLoop accLen (n + e) buf2 p.2 e false
  some (r.1, min buf.length (accLen + n + e), r.2.1, input.drop n)

/-- A string of the error grammar
`Stopped at <file>, <line>/<column>: [<code>] <message>`. -/
def errString (file line col code msg : List Char) : List Char :=
  "Stopped at ".toList ++ file ++ ", ".toList ++ line ++ '/' :: col ++
    ": [".toList ++ code ++ "] ".toList ++ msg

/-- The buffer with `xs` written over positions `j..j + xs.length`. -/
def setSeg (buf : List Nat) (j : Nat) (xs : List Nat) : List Nat :=
  buf.take j ++ xs ++ buf.drop (j + xs.length)

/-- The pending length drained this call by `EscapeReader::read`. -/
def accLenOf (acc buf : List Nat) : Nat := min buf.length acc.length

/-- The fresh bytes the inner reader delivers this call. -/
def freshOf (acc input buf : List Nat) : List Nat :=
  input.take (min (buf.length - accLenOf acc buf) input.length)

example : qdecode qreadInit [[255], [0, 0, 0]] = some (⟨true, true, true, none⟩, []) := by
  decide

example : qdecode qreadInit [[255, 0, 0, 0]] = some (⟨true, true, true, none⟩, [0]) := by
  decide

example : creadStep creadInit [97, 0, 105, 0, 1] = some (⟨some [105], true, false⟩, [97]) := by
  decide

example : closeQ qreadInit [[114, 0], [0]] = none := by decide

example : closeQ qreadInit [[114, 0, 0]] = some (Except.ok (), []) := by decide

example : closeC creadInit [[114, 0], [105, 0, 0]] = none := by decide

example : closeC creadInit [[114, 0, 105, 0, 0]] = some (Except.ok [Char.ofNat 105], []) := by
  decide

example : md5Hex [] = "d41d8cd98f00b204e9800998ecf8427e".toList := by decide

example :
    authenticate "admin".toList "admin".toList (strBytes "BaseX:19501915960728" ++ [0, 0]) =
      some (Except.ok (),
        strBytes "admin" ++ 0 :: (strBytes "af13b20af0e0b0e3517a406c42622d3d" ++ [0]), []) := by
  decide

example : escapeRead [] [0] [9, 9, 9, 9] = some ([255, 0, 9, 9], 2, [], []) := by decide

example : escapeRead [] [0] [9] = some ([255], 1, [0], []) := by decide

example : escapeRead [0] [] [9] = some ([0], 1, [], []) := by decide

example : escapeRead [] [1, 0, 9, 255, 6] [9, 9, 9, 9, 9, 9, 9] =
    some ([1, 255, 0, 9, 255, 255, 6], 7, [], []) := by decide

example : escapeRead [] [0, 0, 0] [9, 9, 9, 9] =
    some ([255, 0, 255, 0], 4, [0, 255], []) := by decide

/-- A read call that sees the whole escaped payload, the delimiter and the
following bytes unescapes the payload and stops at the delimiter. -/
theorem scanPayload_escape (p r : List Nat) :
    scanPayload (escapeBytes p ++ 0 :: r) false = (p, some r) := by
  induction p with
  | nil => simp [escapeBytes, scanPayload]
  | cons b p' ih =>
    by_cases hb : b = 0 ∨ b = 255
    · simp only [escapeBytes, if_pos hb, List.cons_append, List.append_assoc]
      rw [scanPayload]
      simp only [and_true, if_pos rfl]
      rw [scanPayload]
      simp [ih]
    · simp only [escapeBytes, if_neg hb, List.cons_append, List.nil_append]
      rw [scanPayload]
      push_neg at hb
      simp [hb.1, hb.2, ih]

/-- C1: the claim asserts `decode(encode(B)) = B` for every chunking of the
wire bytes, with an escape marker ending one read call still applying to the
next call's first byte.  The code violates this: for `B = [0x00]` the encoder
(`EscapeReader`) emits the wire `[0xFF, 0x00]`, and with the delimiter and
status appended the wire is `[0xFF, 0x00, 0x00, 0x00]`; delivered in one read
call the decoder returns `[0x00] = B`, but chunked as `[0xFF]` then
`[0x00, 0x00, 0x00]` the per-call scan state is lost and the decode returns
`[]`, misreading the escaped `0x00` as the delimiter. -/
theorem c1_roundTrip_chunking_bug :
    escapeRead [] [0] [9, 9, 9, 9] = some ([255, 0, 9, 9], 2, [], [])
    ∧ List.flatten [[255], [0, 0, 0]] = escapeBytes [0] ++ [0, 0]
    ∧ qdecode qreadInit [[255, 0, 0, 0]] = some (⟨true, true, true, none⟩, [0])
    ∧ qdecode qreadInit [[255], [0, 0, 0]] = some (⟨true, true, true, none⟩, [])
    ∧ ([] : List Nat) ≠ [0] := by
  refine ⟨by decide, by decide, by decide, by decide, by decide⟩

/-- C2: the claim asserts that when the payload delimiter is the last byte a
read call delivers, the status byte is still consumed on a later call with
the same classification as the one-call case.  The code violates this in
both decoder shapes: with the wire `"r", 0x00, 0x00` (query shape) and
`"r", 0x00, "i", 0x00, 0x00` (plain shape) in one call, `close` succeeds;
split right after the payload delimiter, the next call rescans the status
area as a fresh payload and `close` hits the unexpected-end-of-stream
`panic!` (query shape) resp. the out-of-bounds status index `panic!`
(plain shape), modelled as `none`. -/
theorem c2_truncated_status_bug :
    closeQ qreadInit [[114, 0, 0]] = some (Except.ok (), [])
    ∧ closeQ qreadInit [[114, 0], [0]] = none
    ∧ closeC creadInit [[114, 0, 105, 0, 0]] = some (Except.ok [Char.ofNat 105], [])
    ∧ closeC creadInit [[114, 0], [105, 0, 0]] = none := by
  refine ⟨by decide, by decide, by decide, by decide⟩

/-- C3 counterexample: in the plain-command decoder shape the byte
immediately following the payload-terminating NUL is the first info byte,
not the status code.  On the wire `"a", 0x00, "i", 0x00, 0x01` the byte after
the payload NUL is `105`, which is neither 0 nor 1, yet the decoder does not
treat it as a fatal protocol violation: it returns normally, taking the
status from the byte after the info string's NUL and classifying failure. -/
theorem c3_counterexample :
    creadStep creadInit [97, 0, 105, 0, 1] = some (⟨some [105], true, false⟩, [97])
    ∧ (105 : Nat) ≠ 0 ∧ (105 : Nat) ≠ 1 := by
  refine ⟨by decide, by decide, by decide⟩

/-- C6: bind framing — `with_value` writes the value's textual XQuery form
and the XQuery type token, each NUL-terminated: string `"aaa"` with token
`xs:string`, integer `123` as `"123"` with token `xs:int`; `without_value`
writes two bare NULs; and `bind` itself frames command code 3 with the query
id and name as NUL-terminated arguments. -/
theorem c6_bind_framing :
    withValueBytes (strBytes "aaa") (strBytes strXqueryType) =
        strBytes "aaa" ++ 0 :: (strBytes "xs:string" ++ [0])
    ∧ withValueBytes (intValueBytes 123) (strBytes intXqueryType) =
        strBytes "123" ++ 0 :: (strBytes "xs:int" ++ [0])
    ∧ withoutValueBytes = [0, 0]
    ∧ bindCmdBytes (strBytes "test") (strBytes "foo") =
        3 :: (strBytes "test" ++ 0 :: (strBytes "foo" ++ [0])) := by
  refine ⟨by decide, by decide, by decide, by decide⟩

/-- Locating the first `0x00` in a byte sequence that starts with a clean
block. -/
theorem findByteIdx_append_zero (info tl : List Nat) (h : ∀ b ∈ info, b ≠ 0) :
    findByteIdx (· == 0) (info ++ 0 :: tl) = some info.length := by
  induction info with
  | nil => simp [findByteIdx]
  | cons b info' ih =>
    have hb : b ≠ 0 := h b (by simp)
    have ih2 := ih (fun x hx => h x (by simp [hx]))
    simp [findByteIdx, hb, ih2]

/-- C3 amended: with the delimiter and the following bytes in one read call,
the query-execute shape interprets the byte immediately following the
payload-terminating NUL as the status, while the plain-command shape takes
the status from the byte following the info string's NUL terminator; in both
shapes status 0 classifies success, status 1 failure, and any other value is
a fatal `panic!` rather than a typed error. -/
theorem c3_status_byte_amended (p info err tailQ tailC more : List Nat) (s : Nat)
    (hinfo : ∀ b ∈ info, b ≠ 0) (herr : ∀ b ∈ err, b ≠ 0) :
    qreadStep qreadInit (escapeBytes p ++ 0 :: 0 :: tailQ) =
        some (⟨true, true, true, none⟩, p)
    ∧ qreadStep qreadInit (escapeBytes p ++ 0 :: 1 :: (err ++ 0 :: more)) =
        some (⟨true, false, true, some err⟩, p)
    ∧ (2 ≤ s → qreadStep qreadInit (escapeBytes p ++ 0 :: s :: tailQ) = none)
    ∧ creadStep creadInit (escapeBytes p ++ 0 :: (info ++ 0 :: 0 :: tailC)) =
        some (⟨some info, true, true⟩, p)
    ∧ creadStep creadInit (escapeBytes p ++ 0 :: (info ++ 0 :: 1 :: tailC)) =
        some (⟨some info, true, false⟩, p)
    ∧ (2 ≤ s → creadStep creadInit (escapeBytes p ++ 0 :: (info ++ 0 :: s :: tailC)) = none) := by
  have hclient : ∀ (sb : Nat) (tl : List Nat),
      creadStep creadInit (escapeBytes p ++ 0 :: (info ++ 0 :: sb :: tl)) =
        if sb = 0 then some (⟨some info, true, true⟩, p)
        else if sb = 1 then some (⟨some info, true, false⟩, p) else none := by
    intro sb tl
    have hne : info ++ 0 :: sb :: tl ≠ [] := by
      cases info <;> simp
    obtain ⟨h0, t0, hrest⟩ := List.exists_cons_of_ne_nil hne
    have hfind : findByteIdx (· == 0) (info ++ 0 :: sb :: tl) = some info.length :=
      findByteIdx_append_zero info _ hinfo
    have hget : (info ++ 0 :: sb :: tl).get? (info.length + 1) = some sb := by
      rw [List.get?_append_right (by omega)]
      simp
    have htake : (info ++ 0 :: sb :: tl).take info.length = info := by
      have := List.take_left info (0 :: sb :: tl)
      simpa using this
    simp only [creadStep, creadInit, Option.isSome_none, Bool.false_eq_true, if_false,
      scanPayload_escape, hrest]
    rw [← hrest, hfind]
    simp only [hget, htake]
  refine ⟨?_, ?_, ?_, ?_, ?_, ?_⟩
  · simp [qreadStep, qreadInit, scanPayload_escape]
  · have hfind : findByteIdx (· == 0) (err ++ 0 :: more) = some err.length :=
      findByteIdx_append_zero err _ herr
    have htake : (err ++ 0 :: more).take err.length = err := by
      have := List.take_left err (0 :: more)
      simpa using this
    simp [qreadStep, qreadInit, scanPayload_escape, hfind, htake]
  · intro hs
    have h0 : s ≠ 0 := by omega
    have h1 : s ≠ 1 := by omega
    simp [qreadStep, qreadInit, scanPayload_escape, h0, h1]
  · simpa using hclient 0 tailC
  · simpa using hclient 1 tailC
  · intro hs
    have h0 : s ≠ 0 := by omega
    have h1 : s ≠ 1 := by omega
    simp [hclient s tailC, h0, h1]

/-- Witness for C3: the amended status-byte behaviour at a concrete payload
with escaped bytes, a concrete info string and status 2. -/
theorem c3_status_byte_amended_witness :
    (∀ b ∈ [105], b ≠ 0) ∧ (∀ b ∈ [106], b ≠ 0) ∧
    (qreadStep qreadInit (escapeBytes [0, 255] ++ 0 :: 0 :: []) =
        some (⟨true, true, true, none⟩, [0, 255])
    ∧ qreadStep qreadInit (escapeBytes [0, 255] ++ 0 :: 1 :: ([106] ++ 0 :: [])) =
        some (⟨true, false, true, some [106]⟩, [0, 255])
    ∧ (2 ≤ 2 → qreadStep qreadInit (escapeBytes [0, 255] ++ 0 :: 2 :: []) = none)
    ∧ creadStep creadInit (escapeBytes [0, 255] ++ 0 :: ([105] ++ 0 :: 0 :: [])) =
        some (⟨some [105], true, true⟩, [0, 255])
    ∧ creadStep creadInit (escapeBytes [0, 255] ++ 0 :: ([105] ++ 0 :: 1 :: [])) =
        some (⟨some [105], true, false⟩, [0, 255])
    ∧ (2 ≤ 2 → creadStep creadInit (escapeBytes [0, 255] ++ 0 :: ([105] ++ 0 :: 2 :: [])) =
        none)) :=
  ⟨by decide, by decide,
    c3_status_byte_amended [0, 255] [105] [106] [] [] [] 2 (by decide) (by decide)⟩

/-- A query-shape drain loop over a completed response consumes nothing. -/
theorem closeQLoop_complete (st : QState) (h : st.resultComplete = true)
    (chunks : List (List Nat)) : closeQLoop st chunks = some (st, chunks) := by
  cases chunks <;> simp [closeQLoop, h]

/-- A plain-shape drain loop over an observed info string consumes nothing. -/
theorem closeCLoop_complete (st : CState) (h : st.infoAcc.isSome)
    (chunks : List (List Nat)) : closeCLoop st chunks = some (st, chunks) := by
  cases chunks <;> simp [closeCLoop, h]

/-- C7: once a response is fully drained (delimiter and status observed, and
failure info — when any — fully read), `close()` performs no further reads on
the underlying stream: its result equals the result over an empty stream and
every stream byte is still unconsumed, in both decoder shapes. -/
theorem c7_close_idempotent (stq : QState) (stc : CState) (chunks : List (List Nat))
    (hq1 : stq.resultComplete = true)
    (hq2 : stq.isOk = false → stq.infoComplete = true)
    (hc1 : stc.infoAcc.isSome)
    (hc2 : stc.infoComplete = true) :
    closeQ stq chunks = (closeQ stq []).map (fun r => (r.1, chunks.flatten))
    ∧ closeC stc chunks = (closeC stc []).map (fun r => (r.1, chunks.flatten)) := by
  constructor
  · cases hok : stq.isOk with
    | true => simp [closeQ, closeQLoop_complete stq hq1, hq1, hok]
    | false =>
      have hic := hq2 hok
      simp only [closeQ, closeQLoop_complete stq hq1, hq1, hok, closeQSuffix, hic]
      cases decodeUtf8 (stq.infoAcc.getD []) with
      | none => simp
      | some infoChars =>
        rcases hqf : queryFailedNew (infoChars ++ Option.getD none []) with _ | qf <;>
          simp at hqf <;> simp [hqf]
  · obtain ⟨accBytes, hacc⟩ := Option.isSome_iff_exists.mp hc1
    simp only [closeC, closeCLoop_complete stc hc1, hacc, closeCDrain, hc2]
    cases decodeUtf8 accBytes with
    | none => simp
    | some infoChars => cases stc.isOk <;> simp

/-- Witness for C7 at concrete drained states over a nonempty stream. -/
theorem c7_close_idempotent_witness :
    closeQ ⟨true, true, true, none⟩ [[7, 8]] =
        (closeQ ⟨true, true, true, none⟩ []).map (fun r => (r.1, List.flatten [[7, 8]]))
    ∧ closeC ⟨some [105], true, false⟩ [[7, 8]] =
        (closeC ⟨some [105], true, false⟩ []).map (fun r => (r.1, List.flatten [[7, 8]])) :=
  c7_close_idempotent ⟨true, true, true, none⟩ ⟨some [105], true, false⟩ [[7, 8]]
    rfl (fun h => by cases h) (by decide) rfl

/-- Splitting a NUL-terminated frame whose body has no NUL. -/
theorem splitAtZero_clean (text r : List Nat) (h : ∀ b ∈ text, b ≠ 0) :
    splitAtZero (text ++ 0 :: r) = some (text, r) := by
  induction text with
  | nil => simp [splitAtZero]
  | cons b t ih =>
    have hb : b ≠ 0 := h b (by simp)
    have ih2 := ih (fun x hx => h x (by simp [hx]))
    simp [splitAtZero, hb, ih2]

/-- An ASCII leading byte decodes to itself, consuming nothing further. -/
theorem utf8Head_ascii (b : Nat) (rest : List Nat) (hb : b < 128) :
    utf8Head b rest = some (b, rest) := by
  simp [utf8Head, hb]

/-- The decode loop on ASCII bytes, under sufficient fuel. -/
theorem decodeUtf8F_ascii (fuel : Nat) (l : List Nat) (hfuel : l.length ≤ fuel)
    (h : ∀ b ∈ l, b < 128) : decodeUtf8F fuel l = some (l.map Char.ofNat) := by
  induction fuel generalizing l with
  | zero =>
    cases l with
    | nil => rfl
    | cons b t => simp at hfuel
  | succ f ih =>
    cases l with
    | nil => rfl
    | cons b t =>
      have hb : b < 128 := h b (by simp)
      have ht : t.length ≤ f := by simp at hfuel; omega
      rw [decodeUtf8F, utf8Head_ascii b t hb]
      simp [ih t ht (fun x hx => h x (by simp [hx]))]

/-- ASCII bytes decode to themselves. -/
theorem decodeUtf8_ascii (l : List Nat) (h : ∀ b ∈ l, b < 128) :
    decodeUtf8 l = some (l.map Char.ofNat) :=
  decodeUtf8F_ascii l.length l le_rfl h

/-- C8: `updating()` writes the `Updating` command code 30 followed by the
query id as a NUL-terminated argument, and on a successful command response
the text `true` yields `true`, `false` yields `false`, and any other text is
a `panic!`, not a typed error. -/
theorem c8_updating (id text rest : List Nat) (h : ∀ b ∈ text, b ≠ 0 ∧ b < 128) :
    updatingWritten id = 30 :: (escapeBytes id ++ [0])
    ∧ (text.map Char.ofNat = "true".toList →
        updatingRun id (text ++ 0 :: 0 :: rest) =
          some (Except.ok true, updatingWritten id, rest))
    ∧ (text.map Char.ofNat = "false".toList →
        updatingRun id (text ++ 0 :: 0 :: rest) =
          some (Except.ok false, updatingWritten id, rest))
    ∧ (text.map Char.ofNat ≠ "true".toList → text.map Char.ofNat ≠ "false".toList →
        updatingRun id (text ++ 0 :: 0 :: rest) = none) := by
  have hresp : getResponse (text ++ 0 :: 0 :: rest) =
      (Except.ok (text.map Char.ofNat), rest) := by
    simp [getResponse, readStringE, splitAtZero_clean text _ (fun b hb => (h b hb).1),
      decodeUtf8_ascii text (fun b hb => (h b hb).2)]
  refine ⟨rfl, ?_, ?_, ?_⟩
  · intro ht
    simp [updatingRun, hresp, ht]
  · intro hf
    have : "false".toList ≠ "true".toList := by decide
    simp [updatingRun, hresp, hf, this]
  · intro ht hf
    have e1 : "true".toList = ['t', 'r', 'u', 'e'] := rfl
    have e2 : "false".toList = ['f', 'a', 'l', 's', 'e'] := rfl
    rw [e1] at ht
    rw [e2] at hf
    simp [updatingRun, hresp, ht, hf]

/-- Witness for C8: the three response texts at a concrete query id. -/
theorem c8_updating_witness :
    updatingWritten [49] = 30 :: (escapeBytes [49] ++ [0])
    ∧ (List.map Char.ofNat (strBytes "true") = "true".toList →
        updatingRun [49] (strBytes "true" ++ 0 :: 0 :: []) =
          some (Except.ok true, updatingWritten [49], []))
    ∧ (List.map Char.ofNat (strBytes "true") = "false".toList →
        updatingRun [49] (strBytes "true" ++ 0 :: 0 :: []) =
          some (Except.ok false, updatingWritten [49], []))
    ∧ (List.map Char.ofNat (strBytes "true") ≠ "true".toList →
        List.map Char.ofNat (strBytes "true") ≠ "false".toList →
        updatingRun [49] (strBytes "true" ++ 0 :: 0 :: []) = none) :=
  c8_updating [49] (strBytes "true") [] (by decide)

/-- `find` over a block with no match shifts into the tail. -/
theorem findIdxO_map_none (p : Char → Bool) (a b : List Char) (h : ∀ x ∈ a, p x = false) :
    findIdxO p (a ++ b) = (findIdxO p b).map (a.length + ·) := by
  induction a with
  | nil => cases hb : findIdxO p b <;> simp [hb]
  | cons c t ih =>
    have hc := h c (by simp)
    have ih2 := ih (fun x hx => h x (by simp [hx]))
    cases hb : findIdxO p b <;>
      simp [findIdxO, hc, ih2, hb] <;> omega

/-- `find` locates the first matching character after a clean block. -/
theorem findIdxO_found (p : Char → Bool) (a b : List Char) (c : Char)
    (h : ∀ x ∈ a, p x = false) (hc : p c = true) :
    findIdxO p (a ++ c :: b) = some a.length := by
  rw [findIdxO_map_none p a _ h]
  simp [findIdxO, hc]

/-- `rfind` locates the last matching character when the tail after it is
clean. -/
theorem rfindIdxO_found (p : Char → Bool) (a b : List Char) (c : Char)
    (hc : p c = true) (h : ∀ x ∈ b, p x = false) :
    rfindIdxO p (a ++ c :: b) = some a.length := by
  unfold rfindIdxO
  have hrev : (a ++ c :: b).reverse = b.reverse ++ c :: a.reverse := by simp
  rw [hrev, findIdxO_found p _ _ c (fun x hx => h x (List.mem_reverse.mp hx)) hc]
  simp

/-- Slicing out the exact middle block of a concatenation. -/
theorem sliceO_exact (x y z : List Char) :
    sliceO (x ++ (y ++ z)) x.length (x.length + y.length) = some y := by
  unfold sliceO
  rw [if_pos ⟨by omega, by simp⟩]
  have h1 : (x ++ (y ++ z)).take (x.length + y.length) = x ++ y := by
    rw [List.take_append_eq_append_take, List.take_all_of_le (by omega)]
    congr 1
    rw [show x.length + y.length - x.length = y.length by omega]
    exact List.take_left y z
  rw [h1, List.drop_left]

/-- Dropping the exact leading block of a concatenation. -/
theorem dropO_exact (x y : List Char) : dropO (x ++ y) x.length = some y := by
  unfold dropO
  rw [if_pos (by simp)]
  simp

/-- A digit character is distinct from any non-digit character. -/
theorem isDigitB_ne (c x : Char) (h : isDigitB c = true) (hx : isDigitB x = false) :
    c ≠ x := by
  intro he
  rw [he, hx] at h
  exact Bool.noConfusion h

/-- `from_str` on a nonempty digit string whose value fits a `usize` returns
its value. -/
theorem parseNat_digits (d : List Char) (h1 : d ≠ []) (h2 : ∀ c ∈ d, isDigitB c = true)
    (h3 : natOfDigits d ≤ usizeMax) :
    parseNat d = some (natOfDigits d) := by
  cases d with
  | nil => cases h1 rfl
  | cons c rest =>
    have hc : isDigitB c = true := h2 c (by simp)
    have hcp : c ≠ '+' := isDigitB_ne c '+' hc (by decide)
    have hall : (c :: rest).all isDigitB = true := List.all_eq_true.mpr h2
    simp [parseNat, hcp, hall, h3]

/-- A digit string whose value exceeds `usize::MAX` is the `PosOverflow`
error: `from_str` yields no value, so the caller's `unwrap` is a `panic!`. -/
theorem parseNat_posOverflow :
    parseNat "99999999999999999999999999".toList = none := by decide

/-- A digit-only block cannot contain a non-digit character. -/
theorem digit_mem_ne (l : List Char) (h : ∀ c ∈ l, isDigitB c = true) (x : Char)
    (hx : isDigitB x = false) (hmem : x ∈ l) : False := by
  have h2 := h x hmem
  rw [hx] at h2
  exact Bool.noConfusion h2

/-- C5: for every error string of the grammar
`Stopped at <file>, <line>/<column>: [<code>] <message>` (file free of `[`,
code free of `]`, line and column nonempty digit strings whose values fit a
`usize`), `QueryFailed` parsing extracts exactly the code, the line, the
column, the message and the file — `.` being the file for a query not backed
by a source file. -/
theorem c5_queryFailed_grammar (file line col code msg : List Char)
    (hf : ∀ c ∈ file, c ≠ '[')
    (hl1 : line ≠ []) (hl2 : ∀ c ∈ line, isDigitB c = true)
    (hlv : natOfDigits line ≤ usizeMax)
    (hc1 : col ≠ []) (hc2 : ∀ c ∈ col, isDigitB c = true)
    (hcv : natOfDigits col ≤ usizeMax)
    (hcd : ∀ c ∈ code, c ≠ ']') :
    queryFailedNew (errString file line col code msg) =
      some ⟨errString file line col code msg, code, natOfDigits line, natOfDigits col,
        msg, file⟩ := by
  set a3 : List Char := "Stopped at ".toList ++ file with ha3
  set a2 : List Char := "Stopped at ".toList ++ file ++ ", ".toList ++ line with ha2
  set a1 : List Char :=
    "Stopped at ".toList ++ file ++ ", ".toList ++ line ++ '/' :: (col ++ [':', ' '])
    with ha1
  have g1 : errString file line col code msg = a1 ++ '[' :: (code ++ ']' :: ' ' :: msg) := by
    simp [errString, ha1]
  have hno1 : ∀ x ∈ a1, ((· = '[') x : Bool) = false := by
    intro x hx
    simp only [decide_eq_false_iff_not]
    intro he
    subst he
    rw [ha1] at hx
    simp at hx
    rcases hx with h | h | h
    · exact hf _ h rfl
    · exact digit_mem_ne line hl2 '[' (by decide) h
    · exact digit_mem_ne col hc2 '[' (by decide) h
  have hci : findIdxO (· = '[') (errString file line col code msg) = some a1.length := by
    rw [g1]
    exact findIdxO_found _ a1 _ '[' hno1 (by decide)
  have hdrop1 : (errString file line col code msg).drop a1.length =
      '[' :: (code ++ ']' :: ' ' :: msg) := by
    rw [g1]
    exact List.drop_left a1 _
  have hcj : findIdxO (· = ']') ('[' :: (code ++ ']' :: ' ' :: msg)) =
      some (code.length + 1) := by
    have hin : findIdxO (· = ']') (code ++ ']' :: (' ' :: msg)) = some code.length := by
      refine findIdxO_found _ code _ ']' ?_ (by decide)
      intro x hx
      simp only [decide_eq_false_iff_not]
      exact hcd x hx
    rw [findIdxO]
    simp [hin]
  have hcode : sliceO (errString file line col code msg) (a1.length + 1)
      (a1.length + (code.length + 1)) = some code := by
    have h0 := sliceO_exact (a1 ++ ['[']) code (']' :: ' ' :: msg)
    have e : (a1 ++ ['[']) ++ (code ++ (']' :: ' ' :: msg)) =
        errString file line col code msg := by
      rw [g1]
      simp
    rw [e] at h0
    have e2 : (a1 ++ ['[']).length = a1.length + 1 := by simp
    rw [e2] at h0
    have e3 : a1.length + 1 + code.length = a1.length + (code.length + 1) := by omega
    rw [e3] at h0
    exact h0
  have htake1 : (errString file line col code msg).take a1.length = a1 := by
    rw [g1]
    exact List.take_left a1 _
  have e21 : a1 = a2 ++ '/' :: (col ++ [':', ' ']) := by
    rw [ha1, ha2]
    try simp
  have hls : rfindIdxO (· = '/') a1 = some a2.length := by
    rw [e21]
    refine rfindIdxO_found _ a2 _ '/' (by decide) ?_
    intro x hx
    simp only [decide_eq_false_iff_not]
    intro he
    subst he
    simp at hx
    exact digit_mem_ne col hc2 '/' (by decide) hx
  have g2 : errString file line col code msg =
      a2 ++ '/' :: (col ++ ':' :: ' ' :: '[' :: (code ++ ']' :: ' ' :: msg)) := by
    rw [g1, e21]
    simp
  have htake2 : (errString file line col code msg).take a2.length = a2 := by
    rw [g2]
    exact List.take_left a2 _
  have hlstart : rfindIdxO (· = ',') a2 = some a3.length := by
    have e4 : a2 = a3 ++ ',' :: (' ' :: line) := by
      rw [ha2, ha3]
      simp
    rw [e4]
    refine rfindIdxO_found _ a3 _ ',' (by decide) ?_
    intro x hx
    simp only [decide_eq_false_iff_not]
    intro he
    subst he
    simp at hx
    exact digit_mem_ne line hl2 ',' (by decide) hx
  have hdrop2 : (errString file line col code msg).drop a2.length =
      '/' :: (col ++ ':' :: ' ' :: '[' :: (code ++ ']' :: ' ' :: msg)) := by
    rw [g2]
    exact List.drop_left a2 _
  have hcolon : findIdxO (· = ':')
      ('/' :: (col ++ ':' :: ' ' :: '[' :: (code ++ ']' :: ' ' :: msg))) =
      some (col.length + 1) := by
    have hin : findIdxO (· = ':')
        (col ++ ':' :: (' ' :: '[' :: (code ++ ']' :: ' ' :: msg))) = some col.length := by
      refine findIdxO_found _ col _ ':' ?_ (by decide)
      intro x hx
      simp only [decide_eq_false_iff_not]
      intro he
      subst he
      exact digit_mem_ne col hc2 ':' (by decide) hx
    rw [findIdxO]
    simp only [List.cons_append] at hin
    simp [hin]
  have hline : sliceO (errString file line col code msg) (a3.length + 2) a2.length =
      some line := by
    have h0 := sliceO_exact (a3 ++ [',', ' ']) line
      ('/' :: (col ++ ':' :: ' ' :: '[' :: (code ++ ']' :: ' ' :: msg)))
    have e : (a3 ++ [',', ' ']) ++
        (line ++ '/' :: (col ++ ':' :: ' ' :: '[' :: (code ++ ']' :: ' ' :: msg))) =
        errString file line col code msg := by
      rw [g2, ha2, ha3]
      simp
    rw [e] at h0
    have e2 : (a3 ++ [',', ' ']).length = a3.length + 2 := by simp
    rw [e2] at h0
    have e3 : a3.length + 2 + line.length = a2.length := by
      rw [ha2, ha3]
      simp
      try omega
    rw [e3] at h0
    exact h0
  have hcol : sliceO (errString file line col code msg) (a2.length + 1)
      (a2.length + (col.length + 1)) = some col := by
    have h0 := sliceO_exact (a2 ++ ['/']) col
      (':' :: ' ' :: '[' :: (code ++ ']' :: ' ' :: msg))
    have e : (a2 ++ ['/']) ++ (col ++ ':' :: ' ' :: '[' :: (code ++ ']' :: ' ' :: msg)) =
        errString file line col code msg := by
      rw [g2]
      simp
    rw [e] at h0
    have e2 : (a2 ++ ['/']).length = a2.length + 1 := by simp
    rw [e2] at h0
    have e3 : a2.length + 1 + col.length = a2.length + (col.length + 1) := by omega
    rw [e3] at h0
    exact h0
  have hmsg : dropO (errString file line col code msg)
      (a1.length + (code.length + 1) + 2) = some msg := by
    have h0 := dropO_exact (a1 ++ '[' :: (code ++ [']', ' '])) msg
    have e : (a1 ++ '[' :: (code ++ [']', ' '])) ++ msg =
        errString file line col code msg := by
      rw [g1]
      simp
    rw [e] at h0
    have e2 : (a1 ++ '[' :: (code ++ [']', ' '])).length =
        a1.length + (code.length + 1) + 2 := by
      simp
      omega
    rw [e2] at h0
    exact h0
  have hfile : sliceO (errString file line col code msg) 11 a3.length = some file := by
    have h0 := sliceO_exact "Stopped at ".toList file
      (", ".toList ++ line ++ '/' :: (col ++ ':' :: ' ' :: '[' :: (code ++ ']' :: ' ' :: msg)))
    have e : "Stopped at ".toList ++
        (file ++ (", ".toList ++ line ++ '/' :: (col ++ ':' :: ' ' :: '[' ::
          (code ++ ']' :: ' ' :: msg)))) = errString file line col code msg := by
      rw [g2, ha2]
      simp
    rw [e] at h0
    have e2 : ("Stopped at ".toList : List Char).length = 11 := by decide
    rw [e2] at h0
    have e3 : 11 + file.length = a3.length := by
      rw [ha3]
      simp
      try omega
    rw [e3] at h0
    exact h0
  have hpl := parseNat_digits line hl1 hl2 hlv
  have hpc := parseNat_digits col hc1 hc2 hcv
  simp only [queryFailedNew, hci, Option.bind_eq_bind, Option.some_bind, hdrop1, hcj,
    hcode, htake1, hls, htake2, hlstart, hdrop2, hcolon, hline, hpl, hcol, hpc, hmsg,
    hfile]

/-- Witness for C5: the vector
`Stopped at ., 1/1: [XPST0008] Undeclared variable: $x.` parses to code
`XPST0008`, line 1, column 1, file `.`, message `Undeclared variable: $x.`. -/
theorem c5_queryFailed_grammar_witness :
    errString ".".toList "1".toList "1".toList "XPST0008".toList
        "Undeclared variable: $x.".toList =
      "Stopped at ., 1/1: [XPST0008] Undeclared variable: $x.".toList
    ∧ natOfDigits "1".toList = 1
    ∧ queryFailedNew (errString ".".toList "1".toList "1".toList "XPST0008".toList
        "Undeclared variable: $x.".toList) =
      some ⟨errString ".".toList "1".toList "1".toList "XPST0008".toList
          "Undeclared variable: $x.".toList,
        "XPST0008".toList, natOfDigits "1".toList, natOfDigits "1".toList,
        "Undeclared variable: $x.".toList, ".".toList⟩ :=
  ⟨by decide, by decide,
    c5_queryFailed_grammar ".".toList "1".toList "1".toList "XPST0008".toList
      "Undeclared variable: $x.".toList (by decide) (by decide) (by decide) (by decide)
      (by decide) (by decide) (by decide) (by decide)⟩

/-- C4: `authenticate("admin", "admin")` against the challenge
`"BaseX:19501915960728"` reads the NUL-terminated challenge, writes exactly
`admin`, NUL, the lowercase hex MD5 of `hex(MD5("admin:BaseX:admin"))`
concatenated with the timestamp — `af13b20af0e0b0e3517a406c42622d3d` — and a
NUL, and then succeeds exactly when the single control byte read next is 0,
failing with the authentication-rejected error on any nonzero byte. -/
theorem c4_authenticate (c : Nat) :
    authenticate "admin".toList "admin".toList
        (strBytes "BaseX:19501915960728" ++ [0] ++ [c]) =
      some ((if c = 0 then Except.ok () else Except.error CErr.auth),
        strBytes "admin" ++ 0 :: (strBytes "af13b20af0e0b0e3517a406c42622d3d" ++ [0]),
        []) := by
  have hassoc : strBytes "BaseX:19501915960728" ++ [0] ++ [c] =
      strBytes "BaseX:19501915960728" ++ 0 :: [c] := by simp
  rw [hassoc]
  have h2 := splitAtZero_clean (strBytes "BaseX:19501915960728") [c] (by decide)
  have h3 : decodeUtf8 (strBytes "BaseX:19501915960728") =
      some "BaseX:19501915960728".toList := by decide
  have h4 : splitOnChar ':' "BaseX:19501915960728".toList =
      ["BaseX".toList, "19501915960728".toList] := by decide
  have h5 : encodeUtf8 (authReply "admin".toList "admin".toList
        "BaseX".toList "19501915960728".toList) =
      strBytes "admin" ++ 0 :: (strBytes "af13b20af0e0b0e3517a406c42622d3d" ++ [0]) := by
    decide
  simp only [authenticate, readStringE, h2, h3, h4, List.get?, h5]
  by_cases hc : c = 0
  · simp only [hc]
    simp
    exact h5
  · simp [hc]
    exact h5

/-- C9: the two source revisions of `ToQueryArgument for Option<D>` agree on
a present value but disagree on an absent one: the synchronous revision's
unwrap is a `panic!`, the asynchronous revision writes the empty string while
both keep `D`'s declared XQuery type token. -/
theorem c9_option_binding_divergence (α : Type) (w : α → List Nat) (v : α) (t : String) :
    syncOptionValue w (some v) = some (asyncOptionValue w (some v))
    ∧ syncOptionValue w (none : Option α) = none
    ∧ asyncOptionValue w (none : Option α) = strBytes ""
    ∧ optionXqueryType t = t := by
  exact ⟨rfl, rfl, rfl, rfl⟩

/-- Writing the empty segment leaves the buffer unchanged. -/
theorem setSeg_nil (buf : List Nat) (j : Nat) : setSeg buf j [] = buf := by
  simp [setSeg]

/-- A segment write inside the buffer preserves its length. -/
theorem length_setSeg (buf xs : List Nat) (j : Nat) (h : j + xs.length ≤ buf.length) :
    (setSeg buf j xs).length = buf.length := by
  simp [setSeg]
  omega

/-- A point write at the cell right before a segment extends the segment to
the front. -/
theorem setSeg_set_front (buf xs : List Nat) (j v : Nat) (h : j < buf.length) :
    setSeg (buf.set j v) (j + 1) xs = setSeg buf j (v :: xs) := by
  rw [setSeg, setSeg, List.set_eq_take_cons_drop v h]
  have h1 : (buf.take j).length = j := by
    rw [List.length_take]
    omega
  have h2 : (buf.take j ++ v :: buf.drop (j + 1)).take (j + 1) = buf.take j ++ [v] := by
    rw [List.take_append_eq_append_take, List.take_of_length_le (by omega)]
    congr 1
    rw [h1]
    simp
  have h3 : (buf.take j ++ v :: buf.drop (j + 1)).drop (j + 1 + xs.length) =
      buf.drop (j + 1 + xs.length) := by
    rw [List.drop_append_eq_append_drop]
    rw [List.drop_of_length_le (by omega), h1]
    rw [show j + 1 + xs.length - j = xs.length + 1 by omega]
    simp [List.drop_drop]
    try omega
  rw [h2, h3]
  simp [List.append_assoc]
  congr 1
  omega

/-- A point write at the cell right after a segment extends the segment to
the back. -/
theorem setSeg_set_end (buf xs : List Nat) (lo v : Nat) (h : lo + xs.length < buf.length) :
    setSeg (buf.set (lo + xs.length) v) lo xs = setSeg buf lo (xs ++ [v]) := by
  rw [setSeg, setSeg, List.set_eq_take_cons_drop v h]
  rw [show lo + (xs ++ [v]).length = lo + xs.length + 1 by simp; omega]
  have h1 : (buf.take (lo + xs.length)).length = lo + xs.length := by
    rw [List.length_take]
    omega
  have h2 : (buf.take (lo + xs.length) ++ v :: buf.drop (lo + xs.length + 1)).take lo =
      buf.take lo := by
    rw [List.take_append_of_le_length (by omega), List.take_take]
    congr 1
    omega
  have h3 : (buf.take (lo + xs.length) ++ v :: buf.drop (lo + xs.length + 1)).drop
      (lo + xs.length) = v :: buf.drop (lo + xs.length + 1) := by
    rw [List.drop_append_eq_append_drop, List.drop_of_length_le (by rw [h1]), h1]
    simp
  rw [h2, h3]
  simp [List.append_assoc]

/-- The accumulator-draining loop delivers the pending bytes in pop order
(`P` is the pending content in delivery order, the vector being `P.reverse`),
writing them at `buf[j..j+k]` and leaving the rest pending. -/
theorem popInto_spec (k : Nat) : ∀ (P buf : List Nat) (j : Nat),
    j + k ≤ buf.length → k ≤ P.length →
    popInto buf P.reverse j k = some (setSeg buf j (P.take k), (P.drop k).reverse) := by
  induction k with
  | zero =>
    intro P buf j _ _
    simp [popInto, setSeg_nil]
  | succ k ih =>
    intro P buf j h1 h2
    cases P with
    | nil => simp at h2
    | cons p0 P' =>
      have hga : (p0 :: P').reverse.getLast? = some p0 := by
        rw [List.reverse_cons]
        exact List.getLast?_concat _
      have hdl : (p0 :: P').reverse.dropLast = P'.reverse := by
        rw [List.reverse_cons]
        exact List.dropLast_concat
      have hset : setO buf j p0 = some (buf.set j p0) := by
        rw [setO, if_pos (by omega)]
      have hih : popInto (buf.set j p0) P'.reverse (j + 1) k =
          some (setSeg buf j (p0 :: P'.take k), (P'.drop k).reverse) := by
        rw [ih P' (buf.set j p0) (j + 1)
          (by rw [List.length_set]; omega) (by simp at h2; omega)]
        rw [setSeg_set_front buf (P'.take k) j p0 (by omega)]
      rw [popInto, hga, hdl]
      simp [hset, hih]

/-- The inner read copies the fresh bytes into `buf[j..j+k]`. -/
theorem copyInto_spec (k : Nat) : ∀ (src buf : List Nat) (j : Nat),
    j + k ≤ buf.length → k ≤ src.length →
    copyInto buf src j k = some (setSeg buf j (src.take k)) := by
  induction k with
  | zero =>
    intro src buf j _ _
    simp [copyInto, setSeg_nil]
  | succ k ih =>
    intro src buf j h1 h2
    cases src with
    | nil => simp at h2
    | cons s0 src' =>
      have hset : setO buf j s0 = some (buf.set j s0) := by
        rw [setO, if_pos (by omega)]
      have hih : copyInto (buf.set j s0) src' (j + 1) k =
          some (setSeg buf j (s0 :: src'.take k)) := by
        rw [ih src' (buf.set j s0) (j + 1)
          (by rw [List.length_set]; omega) (by simp at h2; omega)]
        rw [setSeg_set_front buf (src'.take k) j s0 (by omega)]
      rw [copyInto]
      simp [hset, hih]

/-- Escape count over a one-byte extension. -/
theorem countEsc_append_one (t : List Nat) (b : Nat) :
    countEsc (t ++ [b]) = countEsc t + (if b = 0 ∨ b = 255 then 1 else 0) := by
  rw [countEsc, countEsc, List.countP_append]
  congr 1
  by_cases hb : b = 0 ∨ b = 255
  · rcases hb with h | h <;> simp [List.countP, List.countP.go, h]
  · push_neg at hb
    have hb0 : (b == 0) = false := by simp [hb.1]
    have hb255 : (b == 255) = false := by simp [hb.2]
    simp [List.countP, List.countP.go, hb0, hb255]
    rw [if_neg (by push_neg; exact hb)]

/-- Escaping distributes over a one-byte extension. -/
theorem escapeBytes_append_one (t : List Nat) (b : Nat) :
    escapeBytes (t ++ [b]) =
      escapeBytes t ++ (if b = 0 ∨ b = 255 then [255, b] else [b]) := by
  induction t with
  | nil => simp [escapeBytes]
  | cons c t' ih => simp [escapeBytes, ih]

/-- The escaped form is longer by exactly the escape count. -/
theorem length_escapeBytes (s : List Nat) :
    (escapeBytes s).length = s.length + countEsc s := by
  induction s with
  | nil => simp [escapeBytes, countEsc]
  | cons b t ih =>
    by_cases hb : b = 0 ∨ b = 255
    · have h1 : countEsc (b :: t) = countEsc t + 1 := by
        rcases hb with h | h <;> simp [countEsc, List.countP_cons, h]
      simp [escapeBytes, hb, ih, h1]
      omega
    · push_neg at hb
      have h1 : countEsc (b :: t) = countEsc t := by
        simp [countEsc, List.countP_cons, hb.1, hb.2]
      simp [escapeBytes, hb.1, hb.2, ih, h1]
      omega

/-- A skipped iteration (the cell consumed by an escape marker). -/
theorem escLoop_skip (lo steps : Nat) (buf acc : List Nat) (shift : Nat) :
    escLoop lo (steps + 1) buf acc shift true = escLoop lo steps buf acc shift false := by
  rw [escLoop]
  simp

/-- An emitting iteration whose target cell lies inside the buffer. -/
theorem escLoop_emit_in (lo steps : Nat) (buf acc : List Nat) (shift b : Nat)
    (hsh : shift ≤ lo + steps)
    (hg1 : buf.get? (lo + steps - shift) = some b)
    (hlt : lo + steps < buf.length)
    (hg2 : (buf.set (lo + steps) b).get? (lo + steps - shift) = some b)
    (hnb : ¬(b = 255 ∨ b = 0)) :
    escLoop lo (steps + 1) buf acc shift false =
      escLoop lo steps (buf.set (lo + steps) b) acc shift false := by
  rw [escLoop]
  simp only [if_pos hsh, getO, hg1, Option.bind_eq_bind, Option.some_bind, Bool.false_eq_true, if_false,
    if_neg (show ¬buf.length ≤ lo + steps by omega), setO, if_pos hlt, hg2]
  rw [if_neg hnb]

/-- An emitting iteration whose target cell lies past the buffer: the byte is
pushed onto the pending accumulator. -/
theorem escLoop_emit_out (lo steps : Nat) (buf acc : List Nat) (shift b : Nat)
    (hsh : shift ≤ lo + steps)
    (hg1 : buf.get? (lo + steps - shift) = some b)
    (hge : buf.length ≤ lo + steps)
    (hnb : ¬(b = 255 ∨ b = 0)) :
    escLoop lo (steps + 1) buf acc shift false =
      escLoop lo steps buf (acc ++ [b]) shift false := by
  rw [escLoop]
  simp only [if_pos hsh, getO, hg1, Option.bind_eq_bind, Option.some_bind, Bool.false_eq_true, if_false,
    if_pos hge]
  rw [if_neg hnb]

/-- An escaping iteration fully inside the buffer: the byte lands at its
expanded cell and the `0xFF` marker at the cell before it. -/
theorem escLoop_esc_in (lo steps : Nat) (buf acc : List Nat) (shift b : Nat)
    (hsh : shift ≤ lo + steps)
    (hg1 : buf.get? (lo + steps - shift) = some b)
    (hlt : lo + steps < buf.length)
    (hg2 : (buf.set (lo + steps) b).get? (lo + steps - shift) = some b)
    (hb : b = 255 ∨ b = 0)
    (h1 : 1 ≤ lo + steps)
    (hs1 : 1 ≤ shift) :
    escLoop lo (steps + 1) buf acc shift false =
      escLoop lo steps ((buf.set (lo + steps) b).set (lo + steps - 1) 255) acc
        (shift - 1) true := by
  rw [escLoop]
  simp only [if_pos hsh, getO, hg1, Option.bind_eq_bind, Option.some_bind, Bool.false_eq_true, if_false,
    if_neg (show ¬buf.length ≤ lo + steps by omega), setO, if_pos hlt, hg2]
  rw [if_pos hb]
  simp only [if_pos (show lo + steps ≤ (buf.set (lo + steps) b).length by
      rw [List.length_set]; omega),
    if_pos h1, setO,
    if_pos (show lo + steps - 1 < (buf.set (lo + steps) b).length by
      rw [List.length_set]; omega),
    Option.bind_eq_bind, Option.some_bind, if_pos hs1]

/-- An escaping iteration whose byte cell is exactly the first cell past the
buffer: the byte goes to the accumulator and the marker into the last cell. -/
theorem escLoop_esc_boundary (lo steps : Nat) (buf acc : List Nat) (shift b : Nat)
    (hsh : shift ≤ lo + steps)
    (hg1 : buf.get? (lo + steps - shift) = some b)
    (heq : buf.length = lo + steps)
    (hb : b = 255 ∨ b = 0)
    (h1 : 1 ≤ lo + steps)
    (hs1 : 1 ≤ shift) :
    escLoop lo (steps + 1) buf acc shift false =
      escLoop lo steps (buf.set (lo + steps - 1) 255) (acc ++ [b]) (shift - 1) true := by
  rw [escLoop]
  simp only [if_pos hsh, getO, hg1, Option.bind_eq_bind, Option.some_bind, Bool.false_eq_true, if_false,
    if_pos (show buf.length ≤ lo + steps by omega)]
  rw [if_pos hb]
  simp only [if_pos (show lo + steps ≤ buf.length by omega), if_pos h1, setO,
    if_pos (show lo + steps - 1 < buf.length by omega), Option.bind_eq_bind, Option.some_bind, if_pos hs1]

/-- An escaping iteration fully past the buffer: both the byte and its marker
are pushed onto the pending accumulator. -/
theorem escLoop_esc_out (lo steps : Nat) (buf acc : List Nat) (shift b : Nat)
    (hsh : shift ≤ lo + steps)
    (hg1 : buf.get? (lo + steps - shift) = some b)
    (hgt : buf.length < lo + steps)
    (hb : b = 255 ∨ b = 0)
    (hs1 : 1 ≤ shift) :
    escLoop lo (steps + 1) buf acc shift false =
      escLoop lo steps buf ((acc ++ [b]) ++ [255]) (shift - 1) true := by
  rw [escLoop]
  simp only [if_pos hsh, getO, hg1, Option.bind_eq_bind, Option.some_bind, Bool.false_eq_true, if_false,
    if_pos (show buf.length ≤ lo + steps by omega)]
  rw [if_pos hb]
  simp only [if_neg (show ¬lo + steps ≤ buf.length by omega), Option.bind_eq_bind, Option.some_bind,
    if_pos hs1]

/-- The reverse shifting loop, started as `EscapeReader::read` starts it over
the freshly read source bytes `s` sitting at `buf[lo..lo + s.length]`, never
hits a checked failure and produces exactly the escaped form of `s`: the part
fitting the buffer is written at `lo..`, the overflow is pushed onto the
accumulator (in reverse, so pops deliver it in order), and the shift counter
ends at zero. -/
theorem escLoop_spec (s : List Nat) : ∀ (buf acc : List Nat) (lo : Nat),
    (∀ j, j < s.length → buf.get? (lo + j) = s.get? j) →
    lo + s.length ≤ buf.length →
    escLoop lo (s.length + countEsc s) buf acc (countEsc s) false =
      some (setSeg buf lo ((escapeBytes s).take (buf.length - lo)),
        acc ++ ((escapeBytes s).drop (buf.length - lo)).reverse, 0) := by
  induction s using List.reverseRecOn with
  | nil =>
    intro buf acc lo _ _
    simp [escLoop, countEsc, escapeBytes, setSeg_nil]
  | append_singleton t b ih =>
    intro buf acc lo hsrc hle
    have hlent : (escapeBytes t).length = t.length + countEsc t := length_escapeBytes t
    have hsb : buf.get? (lo + t.length) = some b := by
      have h2 : (t ++ [b]).get? t.length = some b := by
        rw [List.get?_append_right (le_refl _)]
        simp
      rw [hsrc t.length (by simp), h2]
    have hsrc' : ∀ j, j < t.length → buf.get? (lo + j) = t.get? j := by
      intro j hj
      rw [hsrc j (by simp; omega), List.get?_append hj]
    have hle' : lo + t.length ≤ buf.length := by
      simp at hle
      omega
    by_cases hb : b = 0 ∨ b = 255
    · -- the last source byte needs an escape marker
      have hbor : b = 255 ∨ b = 0 := hb.symm
      have hcs : countEsc (t ++ [b]) = countEsc t + 1 := by
        rw [countEsc_append_one, if_pos hb]
      have hes : escapeBytes (t ++ [b]) = escapeBytes t ++ [255, b] := by
        rw [escapeBytes_append_one, if_pos hb]
      have hsteps : (t ++ [b]).length + countEsc (t ++ [b]) =
          t.length + countEsc t + 1 + 1 := by
        simp [hcs]
        omega
      rw [hsteps, hcs, hes]
      have hg1 : buf.get? (lo + (t.length + countEsc t + 1) - (countEsc t + 1)) =
          some b := by
        rw [show lo + (t.length + countEsc t + 1) - (countEsc t + 1) = lo + t.length
          from by omega]
        exact hsb
      rcases lt_trichotomy (lo + (t.length + countEsc t + 1)) buf.length with hlt | heq | hgt
      · -- byte and marker both inside the buffer
        have hg2 : (buf.set (lo + (t.length + countEsc t + 1)) b).get?
            (lo + (t.length + countEsc t + 1) - (countEsc t + 1)) = some b := by
          rw [List.get?_set_ne b buf (by omega)]
          exact hg1
        rw [escLoop_esc_in lo (t.length + countEsc t + 1) buf acc (countEsc t + 1) b
          (by omega) hg1 hlt hg2 hbor (by omega) (by omega)]
        rw [Nat.add_sub_cancel, escLoop_skip]
        have hih := ih ((buf.set (lo + (t.length + countEsc t + 1)) b).set
            (lo + (t.length + countEsc t + 1) - 1) 255) acc lo
          (by
            intro j hj
            rw [List.get?_set_ne 255 _ (by omega), List.get?_set_ne b buf (by omega)]
            exact hsrc' j hj)
          (by simp [List.length_set]; omega)
        rw [hih]
        have hbl2 : ((buf.set (lo + (t.length + countEsc t + 1)) b).set
            (lo + (t.length + countEsc t + 1) - 1) 255).length = buf.length := by
          simp [List.length_set]
        rw [hbl2]
        have ht1 : (escapeBytes t).take (buf.length - lo) = escapeBytes t :=
          List.take_of_length_le (by omega)
        have ht2 : (escapeBytes t ++ [255, b]).take (buf.length - lo) =
            escapeBytes t ++ [255, b] :=
          List.take_of_length_le (by simp [hlent]; omega)
        have hd1 : (escapeBytes t).drop (buf.length - lo) = [] :=
          List.drop_eq_nil_of_le (by omega)
        have hd2 : (escapeBytes t ++ [255, b]).drop (buf.length - lo) = [] :=
          List.drop_eq_nil_of_le (by simp [hlent]; omega)
        rw [ht1, ht2, hd1, hd2]
        have hseg1 : setSeg ((buf.set (lo + (t.length + countEsc t + 1)) b).set
            (lo + (t.length + countEsc t + 1) - 1) 255) lo (escapeBytes t) =
            setSeg (buf.set (lo + (t.length + countEsc t + 1)) b) lo
              (escapeBytes t ++ [255]) := by
          have he : lo + (t.length + countEsc t + 1) - 1 = lo + (escapeBytes t).length := by
            rw [hlent]
            omega
          rw [he]
          exact setSeg_set_end _ _ lo 255 (by rw [List.length_set, hlent]; omega)
        have hseg2 : setSeg (buf.set (lo + (t.length + countEsc t + 1)) b) lo
            (escapeBytes t ++ [255]) = setSeg buf lo ((escapeBytes t ++ [255]) ++ [b]) := by
          have he : lo + (t.length + countEsc t + 1) = lo + (escapeBytes t ++ [255]).length := by
            simp [hlent]
            try omega
          rw [he]
          exact setSeg_set_end _ _ lo b (by simp [hlent]; omega)
        rw [hseg1, hseg2]
        simp
      · -- the byte is the first cell past the buffer, the marker the last inside
        have hble : buf.length = lo + (t.length + countEsc t + 1) := heq.symm
        rw [escLoop_esc_boundary lo (t.length + countEsc t + 1) buf acc (countEsc t + 1) b
          (by omega) hg1 hble hbor (by omega) (by omega)]
        rw [Nat.add_sub_cancel, escLoop_skip]
        have hih := ih (buf.set (lo + (t.length + countEsc t + 1) - 1) 255) (acc ++ [b]) lo
          (by
            intro j hj
            rw [List.get?_set_ne 255 _ (by omega)]
            exact hsrc' j hj)
          (by simp [List.length_set]; omega)
        rw [hih]
        have hbl2 : (buf.set (lo + (t.length + countEsc t + 1) - 1) 255).length =
            buf.length := by
          simp [List.length_set]
        rw [hbl2]
        have hr : buf.length - lo = (escapeBytes t).length + 1 := by
          rw [hlent]
          omega
        have ht1 : (escapeBytes t).take (buf.length - lo) = escapeBytes t :=
          List.take_of_length_le (by omega)
        have hd1 : (escapeBytes t).drop (buf.length - lo) = [] :=
          List.drop_eq_nil_of_le (by omega)
        have ht2 : (escapeBytes t ++ [255, b]).take (buf.length - lo) =
            escapeBytes t ++ [255] := by
          rw [hr, List.take_append_eq_append_take, List.take_of_length_le (by omega)]
          congr 1
          rw [show (escapeBytes t).length + 1 - (escapeBytes t).length = 1 from by omega]
          rfl
        have hd2 : (escapeBytes t ++ [255, b]).drop (buf.length - lo) = [b] := by
          rw [hr, List.drop_append_eq_append_drop, List.drop_eq_nil_of_le (by omega)]
          rw [show (escapeBytes t).length + 1 - (escapeBytes t).length = 1 from by omega]
          rfl
        rw [ht1, ht2, hd1, hd2]
        have hseg1 : setSeg (buf.set (lo + (t.length + countEsc t + 1) - 1) 255) lo
            (escapeBytes t) = setSeg buf lo (escapeBytes t ++ [255]) := by
          have he : lo + (t.length + countEsc t + 1) - 1 = lo + (escapeBytes t).length := by
            rw [hlent]
            omega
          rw [he]
          exact setSeg_set_end _ _ lo 255 (by rw [hlent]; omega)
        rw [hseg1]
        simp
      · -- byte and marker both past the buffer
        rw [escLoop_esc_out lo (t.length + countEsc t + 1) buf acc (countEsc t + 1) b
          (by omega) hg1 hgt hbor (by omega)]
        rw [Nat.add_sub_cancel, escLoop_skip]
        have hih := ih buf ((acc ++ [b]) ++ [255]) lo hsrc' hle'
        rw [hih]
        have ht2 : (escapeBytes t ++ [255, b]).take (buf.length - lo) =
            (escapeBytes t).take (buf.length - lo) :=
          List.take_append_of_le_length (by rw [hlent]; omega)
        have hd2 : (escapeBytes t ++ [255, b]).drop (buf.length - lo) =
            (escapeBytes t).drop (buf.length - lo) ++ [255, b] :=
          List.drop_append_of_le_length (by rw [hlent]; omega)
        rw [ht2, hd2]
        simp
    · -- the last source byte passes through unescaped
      have hnb : ¬(b = 255 ∨ b = 0) := by
        push_neg at hb ⊢
        exact ⟨hb.2, hb.1⟩
      have hcs : countEsc (t ++ [b]) = countEsc t := by
        rw [countEsc_append_one, if_neg hb]
        omega
      have hes : escapeBytes (t ++ [b]) = escapeBytes t ++ [b] := by
        rw [escapeBytes_append_one, if_neg hb]
      have hsteps : (t ++ [b]).length + countEsc (t ++ [b]) =
          t.length + countEsc t + 1 := by
        simp [hcs]
        omega
      rw [hsteps, hcs, hes]
      have hg1 : buf.get? (lo + (t.length + countEsc t) - countEsc t) = some b := by
        rw [show lo + (t.length + countEsc t) - countEsc t = lo + t.length from by omega]
        exact hsb
      by_cases hbl : buf.length ≤ lo + (t.length + countEsc t)
      · -- target cell past the buffer: push the byte
        rw [escLoop_emit_out lo (t.length + countEsc t) buf acc (countEsc t) b
          (by omega) hg1 hbl hnb]
        have hih := ih buf (acc ++ [b]) lo hsrc' hle'
        rw [hih]
        have ht2 : (escapeBytes t ++ [b]).take (buf.length - lo) =
            (escapeBytes t).take (buf.length - lo) :=
          List.take_append_of_le_length (by rw [hlent]; omega)
        have hd2 : (escapeBytes t ++ [b]).drop (buf.length - lo) =
            (escapeBytes t).drop (buf.length - lo) ++ [b] :=
          List.drop_append_of_le_length (by rw [hlent]; omega)
        rw [ht2, hd2]
        simp
      · -- target cell inside the buffer
        have hlt : lo + (t.length + countEsc t) < buf.length := by omega
        have hg2 : (buf.set (lo + (t.length + countEsc t)) b).get?
            (lo + (t.length + countEsc t) - countEsc t) = some b := by
          rcases Nat.eq_zero_or_pos (countEsc t) with hc | hc
          · rw [show lo + (t.length + countEsc t) - countEsc t =
                lo + (t.length + countEsc t) from by omega]
            exact List.get?_set_eq_of_lt b hlt
          · rw [List.get?_set_ne b buf (by omega)]
            exact hg1
        rw [escLoop_emit_in lo (t.length + countEsc t) buf acc (countEsc t) b
          (by omega) hg1 hlt hg2 hnb]
        have hih := ih (buf.set (lo + (t.length + countEsc t)) b) acc lo
          (by
            intro j hj
            rw [List.get?_set_ne b buf (by omega)]
            exact hsrc' j hj)
          (by simp [List.length_set]; omega)
        rw [hih]
        have hbl2 : (buf.set (lo + (t.length + countEsc t)) b).length = buf.length := by
          simp [List.length_set]
        rw [hbl2]
        have ht1 : (escapeBytes t).take (buf.length - lo) = escapeBytes t :=
          List.take_of_length_le (by omega)
        have ht2 : (escapeBytes t ++ [b]).take (buf.length - lo) = escapeBytes t ++ [b] :=
          List.take_of_length_le (by simp [hlent]; omega)
        have hd1 : (escapeBytes t).drop (buf.length - lo) = [] :=
          List.drop_eq_nil_of_le (by omega)
        have hd2 : (escapeBytes t ++ [b]).drop (buf.length - lo) = [] :=
          List.drop_eq_nil_of_le (by simp [hlent]; omega)
        rw [ht1, ht2, hd1, hd2]
        have hseg : setSeg (buf.set (lo + (t.length + countEsc t)) b) lo (escapeBytes t) =
            setSeg buf lo (escapeBytes t ++ [b]) := by
          have he : lo + (t.length + countEsc t) = lo + (escapeBytes t).length := by
            rw [hlent]
          rw [he]
          exact setSeg_set_end _ _ lo b (by rw [hlent]; omega)
        rw [hseg]

/-- Taking exactly the length of the front block of a concatenation. -/
theorem take_len_append (A Y : List Nat) (m : Nat) (hA : A.length = m) :
    (A ++ Y).take m = A := by
  rw [List.take_append_eq_append_take, List.take_of_length_le (by omega), hA, Nat.sub_self]
  simp

/-- Dropping exactly the length of the front block of a concatenation. -/
theorem drop_len_append (A Y : List Nat) (m : Nat) (hA : A.length = m) :
    (A ++ Y).drop m = Y := by
  rw [List.drop_append_eq_append_drop, List.drop_eq_nil_of_le (by omega), hA, Nat.sub_self]
  simp

/-- Indexing past the front block of a concatenation. -/
theorem get_len_append (A Y : List Nat) (m j : Nat) (hA : A.length = m) :
    (A ++ Y).get? (m + j) = Y.get? j := by
  rw [List.get?_append_right (by omega)]
  congr 1
  omega

/-- Taking the front block plus `k` more elements of a concatenation. -/
theorem take_append_block (A Y : List Nat) (m k : Nat) (hA : A.length = m) :
    (A ++ Y).take (m + k) = A ++ Y.take k := by
  rw [List.take_append_eq_append_take, List.take_of_length_le (by omega), hA,
    Nat.add_sub_cancel_left]

/-- C10: `EscapeReader::read` never hits an out-of-bounds index, a shift
underflow or any other checked failure, for every pending accumulator, every
underlying input and every output buffer (lengths 0 and 1 included): it
returns `some`, the reported count never exceeds the buffer length, the
buffer keeps its length and its first `count` bytes are the drained pending
bytes followed by the escaped fresh bytes that fit, and the escaped bytes
that do not fit (split escape pairs included) are carried over in the
pending accumulator for the next call, in pop order. -/
theorem c10_escapeReader_safe (acc input buf : List Nat) :
    ∃ bufOut count accOut inputOut,
      escapeRead acc input buf = some (bufOut, count, accOut, inputOut)
      ∧ count ≤ buf.length
      ∧ bufOut.length = buf.length
      ∧ count = min buf.length
          (accLenOf acc buf + (escapeBytes (freshOf acc input buf)).length)
      ∧ bufOut.take count =
          acc.reverse.take (accLenOf acc buf) ++
            (escapeBytes (freshOf acc input buf)).take (buf.length - accLenOf acc buf)
      ∧ accOut = (acc.reverse.drop (accLenOf acc buf)).reverse ++
          ((escapeBytes (freshOf acc input buf)).drop
            (buf.length - accLenOf acc buf)).reverse
      ∧ inputOut = input.drop (min (buf.length - accLenOf acc buf) input.length) := by
  have hpop := popInto_spec (min buf.length acc.length) acc.reverse buf 0
    (by omega) (by simp)
  rw [List.reverse_reverse] at hpop
  have hlenP1 : (acc.reverse.take (min buf.length acc.length)).length =
      min buf.length acc.length := by
    simp [List.length_take]
  have hbuf1 : setSeg buf 0 (acc.reverse.take (min buf.length acc.length)) =
      acc.reverse.take (min buf.length acc.length) ++
        buf.drop (min buf.length acc.length) := by
    rw [setSeg]
    simp [hlenP1]
  have hbuf1len : (setSeg buf 0 (acc.reverse.take (min buf.length acc.length))).length =
      buf.length :=
    length_setSeg buf _ 0 (by rw [hlenP1]; omega)
  have hcopy := copyInto_spec (min (buf.length - min buf.length acc.length) input.length)
    input (setSeg buf 0 (acc.reverse.take (min buf.length acc.length)))
    (min buf.length acc.length) (by rw [hbuf1len]; omega) (by omega)
  have hlenF : (input.take (min (buf.length - min buf.length acc.length)
      input.length)).length = min (buf.length - min buf.length acc.length) input.length := by
    simp [List.length_take]
  have hbuf2len : (setSeg (setSeg buf 0 (acc.reverse.take (min buf.length acc.length)))
      (min buf.length acc.length)
      (input.take (min (buf.length - min buf.length acc.length) input.length))).length =
      buf.length := by
    rw [length_setSeg _ _ _ (by rw [hlenF, hbuf1len]; omega), hbuf1len]
  have htakeA : ((setSeg buf 0 (acc.reverse.take (min buf.length acc.length))).take
      (min buf.length acc.length)).length = min buf.length acc.length := by
    simp [List.length_take]
    rw [hbuf1len]
    omega
  have hbuf2 : setSeg (setSeg buf 0 (acc.reverse.take (min buf.length acc.length)))
      (min buf.length acc.length)
      (input.take (min (buf.length - min buf.length acc.length) input.length)) =
      (setSeg buf 0 (acc.reverse.take (min buf.length acc.length))).take
          (min buf.length acc.length) ++
        (input.take (min (buf.length - min buf.length acc.length) input.length) ++
          (setSeg buf 0 (acc.reverse.take (min buf.length acc.length))).drop
            (min buf.length acc.length +
              (input.take (min (buf.length - min buf.length acc.length)
                input.length)).length)) := by
    rw [setSeg]
    simp [List.append_assoc]
  have hslice : ((setSeg (setSeg buf 0 (acc.reverse.take (min buf.length acc.length)))
      (min buf.length acc.length)
      (input.take (min (buf.length - min buf.length acc.length) input.length))).drop
        (min buf.length acc.length)).take
        (min (buf.length - min buf.length acc.length) input.length) =
      input.take (min (buf.length - min buf.length acc.length) input.length) := by
    rw [hbuf2, drop_len_append _ _ _ htakeA, take_len_append _ _ _ hlenF]
  have hsrc2 : ∀ j, j < (input.take (min (buf.length - min buf.length acc.length)
      input.length)).length →
      (setSeg (setSeg buf 0 (acc.reverse.take (min buf.length acc.length)))
        (min buf.length acc.length)
        (input.take (min (buf.length - min buf.length acc.length) input.length))).get?
          (min buf.length acc.length + j) =
      (input.take (min (buf.length - min buf.length acc.length) input.length)).get? j := by
    intro j hj
    rw [hbuf2, get_len_append _ _ _ j htakeA, List.get?_append hj]
  have hle2 : min buf.length acc.length +
      (input.take (min (buf.length - min buf.length acc.length) input.length)).length ≤
      (setSeg (setSeg buf 0 (acc.reverse.take (min buf.length acc.length)))
        (min buf.length acc.length)
        (input.take (min (buf.length - min buf.length acc.length) input.length))).length := by
    rw [hlenF, hbuf2len]
    omega
  have hloop := escLoop_spec
    (input.take (min (buf.length - min buf.length acc.length) input.length))
    (setSeg (setSeg buf 0 (acc.reverse.take (min buf.length acc.length)))
      (min buf.length acc.length)
      (input.take (min (buf.length - min buf.length acc.length) input.length)))
    ((acc.reverse.drop (min buf.length acc.length)).reverse)
    (min buf.length acc.length) hsrc2 hle2
  rw [hlenF, hbuf2len] at hloop
  have hmain : escapeRead acc input buf =
      some (setSeg (setSeg (setSeg buf 0 (acc.reverse.take (min buf.length acc.length)))
          (min buf.length acc.length)
          (input.take (min (buf.length - min buf.length acc.length) input.length)))
        (min buf.length acc.length)
        ((escapeBytes (input.take (min (buf.length - min buf.length acc.length)
          input.length))).take (buf.length - min buf.length acc.length)),
        min buf.length (min buf.length acc.length +
          min (buf.length - min buf.length acc.length) input.length +
          countEsc (input.take (min (buf.length - min buf.length acc.length)
            input.length))),
        (acc.reverse.drop (min buf.length acc.length)).reverse ++
          ((escapeBytes (input.take (min (buf.length - min buf.length acc.length)
            input.length))).drop (buf.length - min buf.length acc.length)).reverse,
        input.drop (min (buf.length - min buf.length acc.length) input.length)) := by
    rw [escapeRead]
    simp only [Option.bind_eq_bind, hpop, Option.some_bind, hcopy, hslice, hloop]
  refine ⟨_, _, _, _, hmain, ?_, ?_, ?_, ?_, ?_, ?_⟩
  · exact Nat.min_le_left _ _
  · rw [length_setSeg _ _ _ (by
      rw [hbuf2len]
      simp [List.length_take]
      omega), hbuf2len]
  · simp only [accLenOf, freshOf, length_escapeBytes, hlenF]
    omega
  · simp only [accLenOf, freshOf]
    have htakeA2 : ((setSeg (setSeg buf 0 (acc.reverse.take (min buf.length acc.length)))
        (min buf.length acc.length)
        (input.take (min (buf.length - min buf.length acc.length) input.length))).take
          (min buf.length acc.length)).length = min buf.length acc.length := by
      rw [List.length_take, hbuf2len]
      omega
    have hE'len : ((escapeBytes (input.take (min (buf.length - min buf.length acc.length)
        input.length))).take (buf.length - min buf.length acc.length)).length =
        min (buf.length - min buf.length acc.length)
          (escapeBytes (input.take (min (buf.length - min buf.length acc.length)
            input.length))).length := by
      simp [List.length_take]
      try omega
    have hcount : min buf.length (min buf.length acc.length +
        min (buf.length - min buf.length acc.length) input.length +
          countEsc (input.take (min (buf.length - min buf.length acc.length)
            input.length))) =
        min buf.length acc.length +
          ((escapeBytes (input.take (min (buf.length - min buf.length acc.length)
            input.length))).take (buf.length - min buf.length acc.length)).length := by
      rw [hE'len, length_escapeBytes, hlenF]
      omega
    rw [hcount, setSeg, List.append_assoc, take_append_block _ _ _ _ htakeA2,
      take_len_append _ _ _ rfl]
    congr 1
    rw [hbuf2, take_len_append _ _ _ htakeA, hbuf1, take_len_append _ _ _ hlenP1]
  · simp only [accLenOf, freshOf]
  · simp only [accLenOf, freshOf]
